import Mathlib

/-!
# Verification of the Metamath database pipeline orchestrator

A shallow embedding of the incremental pipeline orchestrator of a
Metamath database engine, translated from `src/database.rs` and
`src/outline.rs`:

* the outline builder (`OutlineNode::add_child`, `build_outline`),
* the priority work queue (`queue_work`, `Executor::exec`, `Promise`),
* the pass-cache life cycle of `Database` (lazy accessors, `parse`
  invalidation, clone/copy-on-write sharing, drop order).

Pass payloads are opaque to the orchestrator, so they are modelled by an
abstract value type; shared ownership (`Arc`) is modelled by an explicit
arena of reference-counted cells.
-/

namespace MMKnife

/-! ## Outline builder (`outline.rs`) -/

/-- Modelled from the spec: `parser::HeadingLevel` is not among the given
sources.  The spec orders heading levels numerically with the `Database`
sentinel strictly shallower than any real heading, so a level is modelled
as a `Nat`, the `Database` sentinel being `0` and real headings positive. -/
def HeadingLevel.database : Nat := 0

/-- `parser::StatementAddress`: a segment id together with a statement
index inside that segment (modelled from its use sites in `outline.rs`). -/
structure StatementAddress where
  segment_id : Nat
  index : Nat
deriving DecidableEq, Repr

/-- The part of `parser::HeadingDef` that `outline.rs` reads: the heading
level and the statement index of the heading inside its segment. -/
structure HeadingDef where
  level : Nat
  index : Nat
deriving DecidableEq, Repr

/-- The part of a parsed segment that `build_outline` reads: its
`SegmentId` and its `outline` list of heading definitions. -/
structure Seg where
  id : Nat
  outline : List HeadingDef
deriving DecidableEq, Repr

/-- `OutlineNode { level, stmt_address, children }` from `outline.rs`. -/
inductive OutlineNode : Type where
  | mk (level : Nat) (stmt_address : StatementAddress) (children : List OutlineNode)

/-- Field accessor for `OutlineNode.level`. -/
def OutlineNode.level : OutlineNode → Nat
  | .mk l _ _ => l

/-- Field accessor for `OutlineNode.stmt_address`. -/
def OutlineNode.stmt_address : OutlineNode → StatementAddress
  | .mk _ a _ => a

/-- Field accessor for `OutlineNode.children`. -/
def OutlineNode.children : OutlineNode → List OutlineNode
  | .mk _ _ c => c

/-- `OutlineNode::from_heading_def`: build a leaf node from a heading
definition and the id of the segment it occurs in. -/
def OutlineNode.from_heading_def (heading : HeadingDef) (segment_id : Nat) :
    OutlineNode :=
  .mk heading.level ⟨segment_id, heading.index⟩ []

/-- `OutlineNode::add_child`.  The source first asserts
`child.level > self.level` ("Cannot add subsection of higher level!"); an
assertion failure is modelled as `none`.  With the assertion satisfied:
if the node has no child, push `child`; otherwise, if `child.level` is
strictly greater than the last child's level, recursively add `child`
under the last child, else push `child` as a new sibling. -/
def OutlineNode.add_child : OutlineNode → OutlineNode → Option OutlineNode
  | .mk lvl addr children, child =>
    if child.level > lvl then
      match h : children.getLast? with
      | none => some (.mk lvl addr [child])
      | some last =>
        if child.level > last.level then
          (OutlineNode.add_child last child).map
            (fun l2 => .mk lvl addr (children.dropLast ++ [l2]))
        else some (.mk lvl addr (children ++ [child]))
    else none
termination_by n _ => sizeOf n
decreasing_by
  simp only [OutlineNode.mk.sizeOf_spec]
  have hm : last ∈ children := by
    obtain ⟨hne, heq⟩ :=
      @List.mem_getLast?_eq_getLast _ children last (by simp [h])
    exact heq ▸ children.getLast_mem hne
  have := List.sizeOf_lt_of_mem hm
  omega

/-- The inner loop of `build_outline`: for each `heading` of a segment's
`outline`, in order, build a node with `from_heading_def` and add it to
the tree with `add_child` (a failed assertion aborts, modelled by
`Option.bind`). -/
def add_headings (segment_id : Nat) (node : OutlineNode) :
    List HeadingDef → Option OutlineNode
  | [] => some node
  | h :: t =>
    (node.add_child (OutlineNode.from_heading_def h segment_id)).bind
      fun n => add_headings segment_id n t

/-- The outer loop of `build_outline`: process the segments in order. -/
def add_segments (node : OutlineNode) : List Seg → Option OutlineNode
  | [] => some node
  | s :: t => (add_headings s.id node s.outline).bind fun n => add_segments n t

/-- `build_outline` from `outline.rs`: assert that the segment list is
non-empty (`"Parse returned no segment!"`, modelled as `none`), start from
`root_node` (level `Database`, address `(segments[0].id, 0)`, no child),
then add a node for every heading of every segment in order. -/
def build_outline (segments : List Seg) : Option OutlineNode :=
  match segments with
  | [] => none
  | s :: _ =>
    add_segments (.mk HeadingLevel.database ⟨s.id, 0⟩ []) segments

mutual

/-- Pre-order traversal of an outline tree, listing each node's
`(level, stmt_address)`: the node itself first, then its children's
traversals from left to right. -/
def OutlineNode.preorder : OutlineNode → List (Nat × StatementAddress)
  | .mk lvl addr children => (lvl, addr) :: preorderList children
termination_by n => sizeOf n

/-- Pre-order traversals of a forest, concatenated left to right. -/
def preorderList : List OutlineNode → List (Nat × StatementAddress)
  | [] => []
  | n :: t => OutlineNode.preorder n ++ preorderList t
termination_by l => sizeOf l

end

/-- The heading sequence of a segment set: for every segment in order,
its headings in order, each as `(level, statement address)` — the
sequence `build_outline` scans. -/
def headingSeq : List Seg → List (Nat × StatementAddress)
  | [] => []
  | s :: t => s.outline.map (fun h => (h.level, ⟨s.id, h.index⟩)) ++ headingSeq t

/-! ## Executor and Promise (`database.rs`) -/

/-- The `Job(estimate, closure)` pair of `database.rs`, the closure
acting on a state of type `S`; `Ord for Job` compares estimates only. -/
structure Job (S : Type) where
  estimate : Nat
  act : S → S

/-- `BinaryHeap::pop` on the job heap (modelled as a list): remove a job
of maximal estimate.  The source heap breaks ties arbitrarily; the model
picks the earliest of the maximal jobs. -/
def popMax {S : Type} : List (Job S) → Option (Job S × List (Job S))
  | [] => none
  | j :: t =>
    match popMax t with
    | none => some (j, t)
    | some (m, rest) =>
      if j.estimate < m.estimate then some (m, j :: rest) else some (j, t)

/-- The `Executor` of `database.rs`: its `concurrency` and the job heap
behind its mutex.  Threads and the condition variable are not modelled;
a worker's visible action is `worker_step`. -/
structure Executor (S : Type) where
  concurrency : Nat
  queue : List (Job S)

/-- `queue_work` from `database.rs`: with `concurrency <= 1` the closure
runs inline on the caller immediately and nothing is queued; otherwise
the job is pushed on the heap (and one worker is notified). -/
def queue_work {S : Type} (ex : Executor S) (estimate : Nat) (f : S → S)
    (s : S) : Executor S × S :=
  if ex.concurrency ≤ 1 then (ex, f s)
  else ({ ex with queue := ⟨estimate, f⟩ :: ex.queue }, s)

/-- One iteration of a worker thread's loop: pop a maximal-estimate job
and run it; on an empty queue the worker blocks (no state change). -/
def worker_step {S : Type} (ex : Executor S) (s : S) : Executor S × S :=
  match popMax ex.queue with
  | none => (ex, s)
  | some (j, rest) => ({ ex with queue := rest }, j.act s)

/-- Queue a batch of `(estimate, id)` jobs in order via `queue_work`,
each job's action appending its id to a completion log — the spec's
priority-ordering scenario. -/
def queue_log_jobs (jobs : List (Nat × Nat)) (ex : Executor (List Nat))
    (log : List Nat) : Executor (List Nat) × List Nat :=
  match jobs with
  | [] => (ex, log)
  | (est, id) :: t =>
    let r := queue_work ex est (fun l => l ++ [id]) log
    queue_log_jobs t r.1 r.2

/-- The log left by queueing ten jobs with estimates `1..10` (ids equal
to estimates, submitted in ascending order) on a single-worker executor
(`jobs = 1`, empty heap, empty log). -/
def tenJobsLog : List Nat :=
  (queue_log_jobs ((List.range 10).map fun i => (i + 1, i + 1))
    ⟨1, []⟩ []).2

/-- `panic::catch_unwind`: run a task body; a Rust closure that may
panic is modelled as `Unit → Except P R` with `Except.error` for the
panic payload, which is exactly what `catch_unwind` captures. -/
def catch_unwind {P R : Type} (task : Unit → Except P R) : Except P R :=
  task ()

/-- The shared result slot of a promise
(`Arc<(Mutex<Option<thread::Result<RV>>>, Condvar)>`): `none` while the
task has not yet delivered its result. -/
def Slot (P R : Type) : Type := Option (Except P R)

/-- The closure `Executor::exec` queues: store `catch_unwind(task)` into
the slot (and notify the waiter). -/
def exec_job_body {P R : Type} (task : Unit → Except P R) :
    Slot P R → Slot P R :=
  fun _g => some (catch_unwind task)

/-- `Executor::exec`: start from an empty slot, queue the storing
closure with `queue_work`, and hand back the promise (the slot state).
`exec` itself always returns the promise normally: the task body only
ever runs inside `catch_unwind`. -/
def exec {P R : Type} (ex : Executor (Slot P R)) (estimate : Nat)
    (task : Unit → Except P R) : Executor (Slot P R) × Slot P R :=
  queue_work ex estimate (exec_job_body task) none

/-- `Promise::wait` (`g.take().unwrap().unwrap()`): block until the slot
is filled (`none` = still blocked, never returns), then either return
the stored value normally or re-raise the stored panic
(`Result::unwrap` on the stored `Err`). -/
def Promise.wait {P R : Type} (slot : Slot P R) : Option (Except P R) :=
  match slot with
  | none => none
  | some (Except.ok v) => some (Except.ok v)
  | some (Except.error e) => some (Except.error e)

/-! ## Shared ownership: an arena of reference-counted cells

`Database` holds its segment set and pass results as `Option<Arc<_>>`
fields; clones share the allocations and `Arc::make_mut` gives
copy-on-write.  The heap of `Arc` allocations is modelled as an arena of
reference-counted cells, all pass payloads sharing one opaque value type
`V` (the orchestrator never inspects them). -/

/-- The address of an `Arc` allocation. -/
abbrev Ptr := Nat

/-- The store of `Arc` allocations: each live cell holds a value and its
strong count.  `size` bounds the addresses handed out so far; `alloc`
returns address `size`. -/
structure Arena (V : Type) where
  cells : Ptr → Option (V × Nat)
  size : Nat

namespace Arena

/-- Dereference (`*arc`): the value behind a pointer, `none` if the cell
is dangling. -/
def get {V : Type} (a : Arena V) (p : Ptr) : Option V :=
  (a.cells p).map Prod.fst

/-- The strong count of a cell, `0` if dangling. -/
def rc {V : Type} (a : Arena V) (p : Ptr) : Nat :=
  ((a.cells p).map Prod.snd).getD 0

/-- Overwrite one cell of the store. -/
def write {V : Type} (a : Arena V) (p : Ptr) (c : Option (V × Nat)) :
    Arena V :=
  { a with cells := fun q => if q = p then c else a.cells q }

/-- `Arc::new`: allocate a fresh cell with strong count 1. -/
def alloc {V : Type} (a : Arena V) (v : V) : Arena V × Ptr :=
  ({ cells := fun q => if q = a.size then some (v, 1) else a.cells q,
     size := a.size + 1 },
   a.size)

/-- `Arc::clone`: increment the strong count. -/
def incRef {V : Type} (a : Arena V) (p : Ptr) : Arena V :=
  match a.cells p with
  | none => a
  | some (v, n) => a.write p (some (v, n + 1))

/-- Dropping one `Arc` handle: decrement the strong count, freeing the
cell when the last handle goes away. -/
def decRef {V : Type} (a : Arena V) (p : Ptr) : Arena V :=
  match a.cells p with
  | none => a
  | some (v, n) => if n ≤ 1 then a.write p none else a.write p (some (v, n - 1))

/-- Dropping an `Option<Arc<_>>` (what assigning `None` over it does). -/
def dropOpt {V : Type} (a : Arena V) (o : Option Ptr) : Arena V :=
  match o with
  | none => a
  | some p => a.decRef p

/-- `Arc::make_mut` followed by an in-place update `f` of the value: a
uniquely owned cell is updated in place; a shared cell has its value
cloned into a fresh allocation which is updated, the old handle being
dropped. -/
def makeMut {V : Type} (a : Arena V) (p : Ptr) (f : V → V) :
    Arena V × Ptr :=
  match a.cells p with
  | none => (a, p)
  | some (v, n) =>
    if n ≤ 1 then (a.write p (some (f v, 1)), p)
    else (a.decRef p).alloc (f v)

/-- Read the value behind an `Option<Arc<V>>` field
(`.as_ref().unwrap()` plus dereference); the default covers the dangling
case, unreachable in well-formed states. -/
def readVal {V : Type} [Inhabited V] (a : Arena V) (o : Option Ptr) : V :=
  (o.bind a.get).getD default

end Arena

/-! ## The `Database` orchestrator (`database.rs`) -/

/-- The names of the lazily recomputed analysis passes. -/
inductive Pass where
  | nameck | scopeck | verifyP | outlineP | grammarP | stmtParseP
deriving DecidableEq, Repr

/-- The external pass computations `Database` invokes (`SegmentSet::{new,
read}`, `Nameset::{new, update}`, `scopeck::scope_check`,
`verify::verify`, `outline::build_outline`, `grammar::build_grammar`,
`grammar::parse_statements`).  They live outside the orchestrator (the
spec names them only by contract) and are abstracted as parameters over
the opaque payload type `V`. -/
structure Passes (V : Type) where
  segNew : V
  segRead : V → V → V
  namesetNew : V
  namesetUpdate : V → V → V
  scopeDefault : V
  scopeCheck : V → V → V → V
  verifyDefault : V
  verifyRun : V → V → V → V → V
  outlineBuild : V → V
  grammarBuild : V → V → V
  stmtParseRun : V → V → V → V

/-- The `Option<Arc<_>>` fields of `Database`, in declaration order:
the shared segment set, previous/current result slots for nameck,
scopeck and verify, and current-only slots for outline, grammar and
stmt_parse. -/
structure DbPtrs where
  segments : Option Ptr
  prev_nameset : Option Ptr
  nameset : Option Ptr
  prev_scopes : Option Ptr
  scopes : Option Ptr
  prev_verify : Option Ptr
  verify : Option Ptr
  outline : Option Ptr
  grammar : Option Ptr
  stmt_parse : Option Ptr
deriving DecidableEq, Repr

/-- What a pass accessor produces: the returned `&Arc` (as its address),
the updated store and fields, and the list of passes whose compute body
ran during the call (what the `time(name)` wrappers would report). -/
abbrev AccResult (V : Type) := Ptr × Arena V × DbPtrs × List Pass

/-- `Database::new`: a store holding one fresh `SegmentSet::new`
allocation, every pass slot `None`. -/
def db_new {V : Type} (P : Passes V) : Arena V × DbPtrs :=
  let r := Arena.alloc ⟨fun _ => none, 0⟩ P.segNew
  (r.1, ⟨some r.2, none, none, none, none, none, none, none, none, none⟩)

/-- The shared tail of the nameck/scopeck/verify pass bodies: if the
previous slot is absent, initialize it (`Arc::new(init)`); acquire
exclusive access with `Arc::make_mut` and update the value in place with
`f` (which reads the pass inputs through the store at that point); then
publish the current slot as a clone of the previous one
(`current = previous.clone()`).  Returns the shared pointer and the
final store. -/
def updateShared {V : Type} (a : Arena V) (prev : Option Ptr) (init : V)
    (f : Arena V → V → V) : Ptr × Arena V :=
  let ap :=
    match prev with
    | some q0 => (a, q0)
    | none => a.alloc init
  let r := ap.1.makeMut ap.2 (f ap.1)
  (r.2, r.1.incRef r.2)

/-- `Database::name_result`: cached if the current slot is set;
otherwise initialize `prev_nameset` to `Nameset::new()` if absent, run
`update` on it under `Arc::make_mut` with the parse result, and publish
`nameset = prev_nameset.clone()`.  The temporary clone
`self.parse_result().clone()` is elided: it only moves the segment
cell's count up and back down and no step in between reads that count. -/
def name_result {V : Type} [Inhabited V] (P : Passes V) (a : Arena V)
    (p : DbPtrs) : AccResult V :=
  match p.nameset with
  | some q => (q, a, p, [])
  | none =>
    let u := updateShared a p.prev_nameset P.namesetNew
      fun a1 ns => P.namesetUpdate ns (a1.readVal p.segments)
    (u.1, u.2,
      { p with prev_nameset := some u.1, nameset := some u.1 },
      [Pass.nameck])

/-- `Database::scope_result`: cached if set; otherwise ensure nameck,
initialize `prev_scopes` if absent, run `scope_check` on it under
`Arc::make_mut` with the parse and name results, publish
`scopes = prev_scopes.clone()`. -/
def scope_result {V : Type} [Inhabited V] (P : Passes V) (a : Arena V)
    (p : DbPtrs) : AccResult V :=
  match p.scopes with
  | some q => (q, a, p, [])
  | none =>
    let r0 := name_result P a p
    let u := updateShared r0.2.1 r0.2.2.1.prev_scopes P.scopeDefault
      fun a1 ns => P.scopeCheck ns (a1.readVal r0.2.2.1.segments)
        (a1.readVal r0.2.2.1.nameset)
    (u.1, u.2,
      { r0.2.2.1 with prev_scopes := some u.1, scopes := some u.1 },
      r0.2.2.2 ++ [Pass.scopeck])

/-- `Database::verify_result`: cached if set; otherwise ensure nameck
and scopeck, initialize `prev_verify` if absent, run `verify` on it
under `Arc::make_mut` with the parse, name and scope results, publish
`verify = prev_verify.clone()`. -/
def verify_result {V : Type} [Inhabited V] (P : Passes V) (a : Arena V)
    (p : DbPtrs) : AccResult V :=
  match p.verify with
  | some q => (q, a, p, [])
  | none =>
    let r0 := name_result P a p
    let r1 := scope_result P r0.2.1 r0.2.2.1
    let u := updateShared r1.2.1 r1.2.2.1.prev_verify P.verifyDefault
      fun a1 vr => P.verifyRun vr (a1.readVal r1.2.2.1.segments)
        (a1.readVal r1.2.2.1.nameset) (a1.readVal r1.2.2.1.scopes)
    (u.1, u.2,
      { r1.2.2.1 with prev_verify := some u.1, verify := some u.1 },
      r0.2.2.2 ++ r1.2.2.2 ++ [Pass.verifyP])

/-- `Database::outline_result`: cached if set; otherwise build the
outline from the parse result into a fresh allocation (no previous
slot). -/
def outline_result {V : Type} [Inhabited V] (P : Passes V) (a : Arena V)
    (p : DbPtrs) : AccResult V :=
  match p.outline with
  | some q => (q, a, p, [])
  | none =>
    let parse := a.readVal p.segments
    let r := a.alloc (P.outlineBuild parse)
    let p := { p with outline := some r.2 }
    (r.2, r.1, p, [Pass.outlineP])

/-- `Database::grammar_result`: cached if set; otherwise ensure nameck
and scopeck, then build the grammar from the parse and name results into
a fresh allocation. -/
def grammar_result {V : Type} [Inhabited V] (P : Passes V) (a : Arena V)
    (p : DbPtrs) : AccResult V :=
  match p.grammar with
  | some q => (q, a, p, [])
  | none =>
    let r0 := name_result P a p
    let r1 := scope_result P r0.2.1 r0.2.2.1
    let a := r1.2.1
    let p := r1.2.2.1
    let l1 := r0.2.2.2 ++ r1.2.2.2
    let parse := a.readVal p.segments
    let name := a.readVal p.nameset
    let r := a.alloc (P.grammarBuild parse name)
    let p := { p with grammar := some r.2 }
    (r.2, r.1, p, l1 ++ [Pass.grammarP])

/-- `Database::stmt_parse_result`: cached if set; otherwise ensure
nameck and scopeck, then — inside the pass body — read the parse and
name results, obtain the grammar via `grammar_result` (computing it if
needed), and parse the statements into a fresh allocation. -/
def stmt_parse_result {V : Type} [Inhabited V] (P : Passes V) (a : Arena V)
    (p : DbPtrs) : AccResult V :=
  match p.stmt_parse with
  | some q => (q, a, p, [])
  | none =>
    let r0 := name_result P a p
    let r1 := scope_result P r0.2.1 r0.2.2.1
    let a := r1.2.1
    let p := r1.2.2.1
    let l1 := r0.2.2.2 ++ r1.2.2.2
    let parse := a.readVal p.segments
    let name := a.readVal p.nameset
    let r2 := grammar_result P a p
    let a := r2.2.1
    let p := r2.2.2.1
    let grammar := a.get r2.1
    let r := a.alloc (P.stmtParseRun parse name (grammar.getD default))
    let p := { p with stmt_parse := some r.2 }
    (r.2, r.1, p, l1 ++ r2.2.2.2 ++ [Pass.stmtParseP])

/-- The invalidation tail of `Database::parse`: set the current slots of
nameck, scopeck, verify, outline and grammar to `None` (each old `Arc`
handle is dropped).  Faithful to the source, the `stmt_parse` slot is
NOT touched, and no previous slot is touched. -/
def invalidate {V : Type} (a : Arena V) (p : DbPtrs) : Arena V × DbPtrs :=
  let a := a.dropOpt p.nameset
  let p := { p with nameset := none }
  let a := a.dropOpt p.scopes
  let p := { p with scopes := none }
  let a := a.dropOpt p.verify
  let p := { p with verify := none }
  let a := a.dropOpt p.outline
  let p := { p with outline := none }
  let a := a.dropOpt p.grammar
  let p := { p with grammar := none }
  (a, p)

/-- `Database::parse`: re-read the segment set in place
(`Arc::make_mut(self.segments.as_mut().unwrap()).read(start, text)`),
then invalidate the current pass slots. -/
def db_parse {V : Type} [Inhabited V] (P : Passes V) (input : V)
    (a : Arena V) (p : DbPtrs) : Arena V × DbPtrs :=
  let ap :=
    match p.segments with
    | none => (a, p)
    | some sp =>
      let r := a.makeMut sp fun sv => P.segRead sv input
      (r.1, { p with segments := some r.2 })
  invalidate ap.1 ap.2

/-- The multiset of pointers a database's fields hold (field order). -/
def ptrList (p : DbPtrs) : List Ptr :=
  p.segments.toList ++ p.prev_nameset.toList ++ p.nameset.toList ++
    p.prev_scopes.toList ++ p.scopes.toList ++ p.prev_verify.toList ++
    p.verify.toList ++ p.outline.toList ++ p.grammar.toList ++
    p.stmt_parse.toList

/-- Modelled from the spec: `Clone for Database` is not among the given
sources (the doc comments of `database.rs` describe it, the impl is
elsewhere).  Per spec §4.6, cloning duplicates only the shared handles:
every `Option<Arc<_>>` field is `Arc::clone`d — each held cell's strong
count goes up by one per holding field — and the clone holds the same
pointers. -/
def db_clone {V : Type} (a : Arena V) (p : DbPtrs) : Arena V × DbPtrs :=
  ((ptrList p).foldl Arena.incRef a, p)

/-- Well-formedness of a store w.r.t. the pointers held by any number of
databases (`refs`, with multiplicity): every held pointer was allocated
(below `size`) and its strong count covers the handles held on it. -/
def Inv {V : Type} (a : Arena V) (refs : List Ptr) : Prop :=
  ∀ c ∈ refs, c < a.size ∧ refs.count c ≤ a.rc c

instance {V : Type} (a : Arena V) (refs : List Ptr) :
    Decidable (Inv a refs) :=
  inferInstanceAs (Decidable (∀ c ∈ refs, c < a.size ∧ refs.count c ≤ a.rc c))

/-- The observable pass results of a database: every field dereferenced
through the store. -/
def obs {V : Type} (a : Arena V) (p : DbPtrs) : List (Option V) :=
  [p.segments.bind a.get, p.prev_nameset.bind a.get, p.nameset.bind a.get,
   p.prev_scopes.bind a.get, p.scopes.bind a.get, p.prev_verify.bind a.get,
   p.verify.bind a.get, p.outline.bind a.get, p.grammar.bind a.get,
   p.stmt_parse.bind a.get]

/-- A mutating operation on one database: `parse`, or a pass accessor. -/
inductive DbOp (V : Type) where
  | parseOp (input : V)
  | nameOp | scopeOp | verifyOp | outlineOp | grammarOp | stmtOp

/-- Run a mutating operation, keeping the new store and fields. -/
def applyOp {V : Type} [Inhabited V] (P : Passes V) (op : DbOp V)
    (a : Arena V) (p : DbPtrs) : Arena V × DbPtrs :=
  match op with
  | .parseOp input => db_parse P input a p
  | .nameOp => let r := name_result P a p; (r.2.1, r.2.2.1)
  | .scopeOp => let r := scope_result P a p; (r.2.1, r.2.2.1)
  | .verifyOp => let r := verify_result P a p; (r.2.1, r.2.2.1)
  | .outlineOp => let r := outline_result P a p; (r.2.1, r.2.2.1)
  | .grammarOp => let r := grammar_result P a p; (r.2.1, r.2.2.1)
  | .stmtOp => let r := stmt_parse_result P a p; (r.2.1, r.2.2.1)

/-- The six pass accessors, for statements ranging over all of them. -/
inductive Acc where
  | nameA | scopeA | verifyA | outlineA | grammarA | stmtA
deriving DecidableEq, Repr

/-- Dispatch an accessor. -/
def runAcc {V : Type} [Inhabited V] (P : Passes V) (acc : Acc)
    (a : Arena V) (p : DbPtrs) : AccResult V :=
  match acc with
  | .nameA => name_result P a p
  | .scopeA => scope_result P a p
  | .verifyA => verify_result P a p
  | .outlineA => outline_result P a p
  | .grammarA => grammar_result P a p
  | .stmtA => stmt_parse_result P a p

/-- The result-slot names of `Database` (plus the segment set). -/
inductive SlotName where
  | prevVerifyS | verifyS | prevScopesS | scopesS | prevNamesetS
  | namesetS | segmentsS | outlineS | grammarS | stmtParseS
deriving DecidableEq, Repr

/-- The order in which `Drop for Database` releases the slots: the eight
assignments of the `drop` body in source order (`prev_verify`, `verify`,
`prev_scopes`, `scopes`, `prev_nameset`, `nameset`, `segments`,
`outline`), followed by `grammar` and `stmt_parse`, which the body never
mentions and which Rust therefore drops afterwards, in field-declaration
order. -/
def dropReleaseOrder : List SlotName :=
  [.prevVerifyS, .verifyS, .prevScopesS, .scopesS, .prevNamesetS,
   .namesetS, .segmentsS, .outlineS, .grammarS, .stmtParseS]

/-- A concrete instance of the external pass computations over `Nat`
payloads, for concrete runs of the model. -/
def natPasses : Passes Nat where
  segNew := 10
  segRead := fun s i => s * 3 + i
  namesetNew := 0
  namesetUpdate := fun ns pr => ns + pr + 1
  scopeDefault := 0
  scopeCheck := fun sr pa na => sr + pa + na + 2
  verifyDefault := 0
  verifyRun := fun vr pa na sc => vr + pa + na + sc + 3
  outlineBuild := fun pa => pa + 4
  grammarBuild := fun pa na => pa + na + 5
  stmtParseRun := fun pa na gr => pa + na + gr + 6

/-! ## Theorems -/

@[simp] theorem OutlineNode.level_mk (l : Nat) (a : StatementAddress)
    (c : List OutlineNode) : (OutlineNode.mk l a c).level = l := rfl

@[simp] theorem OutlineNode.stmt_address_mk (l : Nat) (a : StatementAddress)
    (c : List OutlineNode) : (OutlineNode.mk l a c).stmt_address = a := rfl

@[simp] theorem OutlineNode.children_mk (l : Nat) (a : StatementAddress)
    (c : List OutlineNode) : (OutlineNode.mk l a c).children = c := rfl

/-- C1: the claim says `Database::parse` leaves every current pass slot
`None` and every previous slot untouched.  The code violates it (and its
own doc comments) for `stmt_parse`: evaluated on a database whose
`stmt_parse` result has been computed, `parse` clears the nameck,
scopeck, verify, outline and grammar current slots and keeps the
previous slots, but leaves the stale `stmt_parse` slot set. -/
theorem c1_parse_keeps_stale_stmt_parse :
    (let ap := db_new natPasses
     let r := stmt_parse_result natPasses ap.1 ap.2
     let r2 := db_parse natPasses 42 r.2.1 r.2.2.1
     r2.2.nameset = none ∧ r2.2.scopes = none ∧ r2.2.verify = none ∧
     r2.2.outline = none ∧ r2.2.grammar = none ∧
     r2.2.prev_nameset = r.2.2.1.prev_nameset ∧
     r2.2.prev_scopes = r.2.2.1.prev_scopes ∧
     r2.2.prev_verify = r.2.2.1.prev_verify ∧
     r2.2.stmt_parse ≠ none) := by decide

/-- C2: on a fresh database, `stmt_parse_result` runs exactly the pass
bodies of its prerequisite closure in the dependency graph — nameck,
scopeck (grammar's own prerequisite), grammar — and then stmt_parse
itself; the segment set already exists from `new`, and no pass outside
the prerequisite set (verify, outline) is computed. -/
theorem c2_stmt_parse_prerequisites {V : Type} [Inhabited V] (P : Passes V) :
    (let ap := db_new P
     let r := stmt_parse_result P ap.1 ap.2
     r.2.2.2 = [Pass.nameck, Pass.scopeck, Pass.grammarP, Pass.stmtParseP] ∧
     r.2.2.1.verify = none ∧ r.2.2.1.outline = none ∧
     r.2.2.1.segments.isSome ∧ r.2.2.1.nameset.isSome ∧
     r.2.2.1.scopes.isSome ∧ r.2.2.1.grammar.isSome ∧
     r.2.2.1.stmt_parse.isSome) :=
  ⟨rfl, rfl, rfl, rfl, rfl, rfl, rfl, rfl⟩

/-- C4 counterexample: ten jobs with estimates `1..10` queued on a
single-worker executor (`jobs = 1`) do NOT complete in descending
estimate order `10,9,…,1`: with concurrency at most 1, `queue_work` runs
each job inline at queue time. -/
theorem c4_counterexample : tenJobsLog ≠ [10, 9, 8, 7, 6, 5, 4, 3, 2, 1] := by
  decide

/-- C4 (amended): on a single-worker executor the ten jobs complete in
submission order `1,2,…,10`, because `queue_work` with concurrency at
most 1 runs every job inline when it is queued; descending-estimate
dispatch only applies to a pooled executor's heap. -/
theorem c4_inline_completion_order :
    tenJobsLog = [1, 2, 3, 4, 5, 6, 7, 8, 9, 10] := by decide

/-- C7: a task that panics still yields a promise from `exec` (the body
runs inside `catch_unwind`), the panic is stored in the shared slot, and
`Promise::wait` re-raises it — in inline mode (`jobs ≤ 1`), where the
slot is already filled when `exec` returns, and in pooled mode
(`jobs > 1`), where a worker fills it when it runs the queued job. -/
theorem c7_panic_stored_and_rethrown {P R : Type} (task : Unit → Except P R)
    (e : P) (htask : task () = Except.error e) (conc est : Nat) :
    (conc ≤ 1 →
      exec (⟨conc, []⟩ : Executor (Slot P R)) est task
          = (⟨conc, []⟩, some (Except.error e)) ∧
      Promise.wait (some (Except.error e) : Slot P R)
          = some (Except.error e)) ∧
    (1 < conc →
      (exec (⟨conc, []⟩ : Executor (Slot P R)) est task).2 = none ∧
      (worker_step (exec (⟨conc, []⟩ : Executor (Slot P R)) est task).1
          (exec (⟨conc, []⟩ : Executor (Slot P R)) est task).2).2
        = some (Except.error e) ∧
      Promise.wait
          ((worker_step (exec (⟨conc, []⟩ : Executor (Slot P R)) est task).1
            (exec (⟨conc, []⟩ : Executor (Slot P R)) est task).2).2)
        = some (Except.error e)) := by
  constructor
  · intro hc
    simp [exec, queue_work, hc, exec_job_body, catch_unwind, htask,
      Promise.wait]
  · intro hc
    have hc' : ¬ conc ≤ 1 := by omega
    simp [exec, queue_work, hc', exec_job_body, catch_unwind, htask,
      Promise.wait, worker_step, popMax]

/-- C7 witness: inline mode with a concrete panicking task. -/
theorem c7_witness :
    exec (⟨1, []⟩ : Executor (Slot Nat Nat)) 5 (fun _ => Except.error 0)
      = (⟨1, []⟩, some (Except.error 0)) :=
  ((c7_panic_stored_and_rethrown (fun _ => Except.error 0) 0 rfl 1 5).1
    (by decide)).1

/-- C9 counterexample: in the release order of `Drop for Database`, the
`segments` slot is released strictly before the `outline` slot, so it is
false that every pass depending on the segment set (outline included) is
released before the segment set. -/
theorem c9_counterexample :
    ¬ dropReleaseOrder.indexOf SlotName.outlineS <
        dropReleaseOrder.indexOf SlotName.segmentsS := by decide

/-- C9 (amended): on drop the slots are released with verify (previous
then current) before scope, scope before name, name before segments —
but outline, grammar and stmt_parse are released after the segment set,
not before it. -/
theorem c9_drop_release_order :
    dropReleaseOrder.indexOf SlotName.prevVerifyS <
        dropReleaseOrder.indexOf SlotName.verifyS ∧
    dropReleaseOrder.indexOf SlotName.verifyS <
        dropReleaseOrder.indexOf SlotName.prevScopesS ∧
    dropReleaseOrder.indexOf SlotName.prevScopesS <
        dropReleaseOrder.indexOf SlotName.scopesS ∧
    dropReleaseOrder.indexOf SlotName.scopesS <
        dropReleaseOrder.indexOf SlotName.prevNamesetS ∧
    dropReleaseOrder.indexOf SlotName.prevNamesetS <
        dropReleaseOrder.indexOf SlotName.namesetS ∧
    dropReleaseOrder.indexOf SlotName.namesetS <
        dropReleaseOrder.indexOf SlotName.segmentsS ∧
    dropReleaseOrder.indexOf SlotName.segmentsS <
        dropReleaseOrder.indexOf SlotName.outlineS ∧
    dropReleaseOrder.indexOf SlotName.outlineS <
        dropReleaseOrder.indexOf SlotName.grammarS ∧
    dropReleaseOrder.indexOf SlotName.grammarS <
        dropReleaseOrder.indexOf SlotName.stmtParseS := by decide

/-- C10: with zero segments, `build_outline` fails its
`"Parse returned no segment!"` assertion instead of producing a root
node (modelled as `none`); on a non-empty segment set it does produce a
root. -/
theorem c10_empty_segment_set_fails :
    build_outline [] = none ∧ (build_outline [⟨0, []⟩]).isSome = true :=
  ⟨rfl, rfl⟩

/-- C3 counterexample: node at level 0 whose last child has level 3; a
new node of level 2 is added.  The last child's level (3) is numerically
higher (deeper) than the new node's (2), so the claim predicts the new
node is pushed under the last child; the code instead appends it as a
sibling, because its branch condition compares the other way around. -/
theorem c3_counterexample :
    OutlineNode.add_child (.mk 0 ⟨0, 0⟩ [.mk 3 ⟨0, 1⟩ []]) (.mk 2 ⟨0, 2⟩ [])
        = some (.mk 0 ⟨0, 0⟩ [.mk 3 ⟨0, 1⟩ [], .mk 2 ⟨0, 2⟩ []]) ∧
      OutlineNode.add_child (.mk 0 ⟨0, 0⟩ [.mk 3 ⟨0, 1⟩ []]) (.mk 2 ⟨0, 2⟩ [])
        ≠ some (.mk 0 ⟨0, 0⟩ [.mk 3 ⟨0, 1⟩ [.mk 2 ⟨0, 2⟩ []]]) := by
  constructor
  · simp [OutlineNode.add_child]
  · simp [OutlineNode.add_child]

/-- C3 (amended): for a node with at least one child and a new node
satisfying the assertion, `add_child` pushes the new node under the last
child exactly when the NEW node's level is numerically higher (deeper)
than the last child's level; otherwise (new level at most the last
child's) it appends the new node as a sibling. -/
theorem c3_add_child_branches (lvl : Nat) (addr : StatementAddress)
    (cs : List OutlineNode) (last child : OutlineNode)
    (hlast : cs.getLast? = some last) (hassert : lvl < child.level) :
    (last.level < child.level →
      OutlineNode.add_child (.mk lvl addr cs) child =
        (last.add_child child).map fun l2 =>
          OutlineNode.mk lvl addr (cs.dropLast ++ [l2])) ∧
    (child.level ≤ last.level →
      OutlineNode.add_child (.mk lvl addr cs) child =
        some (.mk lvl addr (cs ++ [child]))) := by
  constructor
  · intro hcmp
    rw [OutlineNode.add_child, if_pos hassert]
    split
    · rename_i heq
      rw [hlast] at heq
      cases heq
    · rename_i l' heq
      rw [hlast] at heq
      injection heq with heq'
      subst heq'
      rw [if_pos hcmp]
  · intro hcmp
    rw [OutlineNode.add_child, if_pos hassert]
    split
    · rename_i heq
      rw [hlast] at heq
      cases heq
    · rename_i l' heq
      rw [hlast] at heq
      injection heq with heq'
      subst heq'
      rw [if_neg (by omega)]

/-- C3 witness: a node of level 0 with one child of level 2 and a new
node of level 3 — the new node is pushed under the last child. -/
theorem c3_witness :
    OutlineNode.add_child (.mk 0 ⟨0, 0⟩ [.mk 2 ⟨0, 1⟩ []]) (.mk 3 ⟨0, 2⟩ [])
      = ((OutlineNode.mk 2 ⟨0, 1⟩ []).add_child (.mk 3 ⟨0, 2⟩ [])).map
          (fun l2 => OutlineNode.mk 0 ⟨0, 0⟩
            (([.mk 2 ⟨0, 1⟩ []] : List OutlineNode).dropLast ++ [l2])) :=
  (c3_add_child_branches 0 ⟨0, 0⟩ [.mk 2 ⟨0, 1⟩ []] (.mk 2 ⟨0, 1⟩ [])
      (.mk 3 ⟨0, 2⟩ []) rfl (by decide)).1 (by decide)

theorem preorderList_append (l1 l2 : List OutlineNode) :
    preorderList (l1 ++ l2) = preorderList l1 ++ preorderList l2 := by
  induction l1 with
  | nil => simp [preorderList]
  | cons n t ih => simp [preorderList, ih]

/-- Adding a node under the assertion appends exactly one entry — the
new node's — at the very end of the pre-order traversal, and leaves the
receiving node's level and address unchanged. -/
theorem add_child_preorder : ∀ (n child : OutlineNode),
    n.level < child.level → child.children = [] →
    ∃ n2, n.add_child child = some n2 ∧ n2.level = n.level ∧
      n2.stmt_address = n.stmt_address ∧
      n2.preorder = n.preorder ++ [(child.level, child.stmt_address)]
  | .mk lvl addr cs, child, hl, hc => by
    obtain ⟨cl, ca, cc⟩ := child
    simp only [OutlineNode.children_mk] at hc
    subst hc
    simp only [OutlineNode.level_mk, OutlineNode.stmt_address_mk] at hl ⊢
    rw [OutlineNode.add_child]
    simp only [OutlineNode.level_mk, gt_iff_lt]
    rw [if_pos hl]
    split
    · rename_i heq
      have hcs : cs = [] := by
        exact List.getLast?_eq_none_iff.mp heq
      subst hcs
      exact ⟨_, rfl, rfl, rfl, by simp [OutlineNode.preorder, preorderList]⟩
    · rename_i last heq
      have hcs : cs.dropLast ++ [last] = cs :=
        List.dropLast_append_getLast? last (by simp [heq])
      have hm : last ∈ cs := by
        rw [← hcs]
        exact List.mem_append_right _ (by simp)
      by_cases hcmp : last.level < cl
      · obtain ⟨l2, hadd, hlev, haddr, hpre⟩ :=
          add_child_preorder last (.mk cl ca []) hcmp rfl
        rw [if_pos hcmp, hadd]
        refine ⟨_, rfl, rfl, rfl, ?_⟩
        simp only [OutlineNode.stmt_address_mk, OutlineNode.level_mk] at hpre
        calc (OutlineNode.mk lvl addr (cs.dropLast ++ [l2])).preorder
            = (lvl, addr) :: (preorderList cs.dropLast ++ l2.preorder) := by
              simp [OutlineNode.preorder, preorderList_append, preorderList]
          _ = (lvl, addr) :: (preorderList cs.dropLast ++
                (last.preorder ++ [(cl, ca)])) := by rw [hpre]
          _ = ((lvl, addr) :: preorderList (cs.dropLast ++ [last])) ++
                [(cl, ca)] := by
              simp [preorderList_append, preorderList]
          _ = (OutlineNode.mk lvl addr cs).preorder ++ [(cl, ca)] := by
              rw [hcs]; simp [OutlineNode.preorder]
      · rw [if_neg hcmp]
        refine ⟨_, rfl, rfl, rfl, ?_⟩
        simp [OutlineNode.preorder, preorderList_append, preorderList]
  termination_by n _ _ _ => sizeOf n
  decreasing_by
    have := List.sizeOf_lt_of_mem hm
    simp only [OutlineNode.mk.sizeOf_spec]
    omega

/-- Processing a segment's headings in order appends exactly their
entries, in order, at the end of the pre-order traversal. -/
theorem add_headings_preorder (sid : Nat) : ∀ (hs : List HeadingDef)
    (n : OutlineNode), n.level = HeadingLevel.database →
    (∀ h ∈ hs, 0 < h.level) →
    ∃ n2, add_headings sid n hs = some n2 ∧
      n2.level = HeadingLevel.database ∧
      n2.preorder = n.preorder ++
        hs.map fun h => (h.level, (⟨sid, h.index⟩ : StatementAddress))
  | [], n, hn, _ => ⟨n, rfl, hn, by simp [add_headings]⟩
  | h :: t, n, hn, hh => by
    obtain ⟨n1, hadd, hlev, _, hpre⟩ :=
      add_child_preorder n (OutlineNode.from_heading_def h sid)
        (by
          rw [hn]
          simpa [OutlineNode.from_heading_def, HeadingLevel.database] using
            hh h (by simp))
        (by simp [OutlineNode.from_heading_def])
    obtain ⟨n2, hrec, hlev2, hpre2⟩ :=
      add_headings_preorder sid t n1 (hlev.trans hn)
        (fun x hx => hh x (by simp [hx]))
    refine ⟨n2, ?_, hlev2, ?_⟩
    · simp [add_headings, hadd, hrec]
    · simp [hpre2, hpre, OutlineNode.from_heading_def]

/-- Processing the segments in order appends exactly the full heading
sequence at the end of the pre-order traversal. -/
theorem add_segments_preorder : ∀ (ss : List Seg) (n : OutlineNode),
    n.level = HeadingLevel.database →
    (∀ s ∈ ss, ∀ h ∈ s.outline, 0 < h.level) →
    ∃ n2, add_segments n ss = some n2 ∧
      n2.level = HeadingLevel.database ∧
      n2.preorder = n.preorder ++ headingSeq ss
  | [], n, hn, _ => ⟨n, rfl, hn, by simp [add_segments, headingSeq]⟩
  | s :: t, n, hn, hh => by
    obtain ⟨n1, hadd, hlev, hpre⟩ :=
      add_headings_preorder s.id s.outline n hn
        (fun x hx => hh s (by simp) x hx)
    obtain ⟨n2, hrec, hlev2, hpre2⟩ :=
      add_segments_preorder t n1 hlev
        (fun x hx => hh x (by simp [hx]))
    refine ⟨n2, ?_, hlev2, ?_⟩
    · simp [add_segments, hadd, hrec]
    · simp [hpre2, hpre, headingSeq]

/-- C8: for a non-empty segment set whose heading levels are all
strictly deeper than the `Database` sentinel, `build_outline` succeeds
and the pre-order traversal of the root's descendants is exactly the
original heading sequence (segment order, then heading order within each
segment). -/
theorem c8_preorder_reproduces_heading_sequence (segments : List Seg)
    (hne : segments ≠ [])
    (hpos : ∀ s ∈ segments, ∀ h ∈ s.outline, HeadingLevel.database < h.level) :
    ∃ root, build_outline segments = some root ∧
      root.level = HeadingLevel.database ∧
      preorderList root.children = headingSeq segments := by
  match segments, hne with
  | s :: t, _ =>
    obtain ⟨n2, hadd, hlev, hpre⟩ :=
      add_segments_preorder (s :: t)
        (.mk HeadingLevel.database ⟨s.id, 0⟩ []) rfl hpos
    refine ⟨n2, by simp [build_outline, hadd], hlev, ?_⟩
    obtain ⟨l2, a2, c2⟩ := n2
    simp only [OutlineNode.preorder, preorderList] at hpre
    simp only [List.singleton_append, List.cons.injEq] at hpre
    exact hpre.2

/-- C8 witness: two segments with headings at levels 1, 2 and 1. -/
theorem c8_witness :
    ∃ root,
      build_outline [⟨4, [⟨1, 2⟩, ⟨2, 5⟩]⟩, ⟨9, [⟨1, 0⟩]⟩] = some root ∧
      root.level = HeadingLevel.database ∧
      preorderList root.children =
        headingSeq [⟨4, [⟨1, 2⟩, ⟨2, 5⟩]⟩, ⟨9, [⟨1, 0⟩]⟩] :=
  c8_preorder_reproduces_heading_sequence
    [⟨4, [⟨1, 2⟩, ⟨2, 5⟩]⟩, ⟨9, [⟨1, 0⟩]⟩] (by decide) (by decide)

theorem inv_perm {V : Type} (a : Arena V) {l l2 : List Ptr}
    (hp : l.Perm l2) (h : Inv a l) : Inv a l2 := by
  intro c hc
  obtain ⟨hb, hcnt⟩ := h c (hp.mem_iff.mpr hc)
  exact ⟨hb, by rw [← hp.count_eq]; exact hcnt⟩


@[simp] theorem Arena.size_write {V : Type} (a : Arena V) (p : Ptr)
    (c : Option (V × Nat)) : (a.write p c).size = a.size := rfl

theorem Arena.get_write {V : Type} (a : Arena V) (p : Ptr)
    (c : Option (V × Nat)) (q : Ptr) :
    (a.write p c).get q = if q = p then c.map Prod.fst else a.get q := by
  by_cases h : q = p <;> simp [Arena.get, Arena.write, h]

theorem Arena.rc_write {V : Type} (a : Arena V) (p : Ptr)
    (c : Option (V × Nat)) (q : Ptr) :
    (a.write p c).rc q = if q = p then (c.map Prod.snd).getD 0 else a.rc q := by
  by_cases h : q = p <;> simp [Arena.rc, Arena.write, h]

/-- A cell held by a well-formed reference list is live. -/
theorem inv_live {V : Type} (a : Arena V) {l : List Ptr} (h : Inv a l)
    {q : Ptr} (hq : q ∈ l) : ∃ v n, a.cells q = some (v, n) ∧ 1 ≤ n := by
  obtain ⟨_, hcnt⟩ := h q hq
  have hpos : 1 ≤ l.count q := List.count_pos_iff.mpr hq
  cases hcq : a.cells q with
  | none => rw [Arena.rc, hcq] at hcnt; simp at hcnt; omega
  | some vn =>
    obtain ⟨v, n⟩ := vn
    refine ⟨v, n, rfl, ?_⟩
    rw [Arena.rc, hcq] at hcnt
    simp at hcnt
    omega

/-- Allocating a fresh cell and attaching a first handle to it preserves
well-formedness and every existing cell. -/
theorem inv_alloc {V : Type} (a : Arena V) (v : V) (l : List Ptr)
    (h : Inv a l) :
    Inv (a.alloc v).1 ((a.alloc v).2 :: l) ∧
    ∀ c ∈ l, (a.alloc v).1.get c = a.get c := by
  have hfresh : ∀ c ∈ l, c ≠ a.size := fun c hc => Nat.ne_of_lt (h c hc).1
  constructor
  · intro c hc
    rcases List.mem_cons.mp hc with rfl | hcl
    · have h0 : l.count a.size = 0 :=
        List.count_eq_zero.mpr fun hmem => hfresh _ hmem rfl
      refine ⟨by simp [Arena.alloc], ?_⟩
      show ((a.alloc v).2 :: l).count a.size ≤ _
      rw [show (a.alloc v).2 = a.size from rfl, List.count_cons_self, h0]
      simp [Arena.rc, Arena.alloc]
    · obtain ⟨hb, hcnt⟩ := h c hcl
      have hne : c ≠ a.size := hfresh c hcl
      refine ⟨Nat.lt_succ_of_lt hb, ?_⟩
      show ((a.alloc v).2 :: l).count c ≤ _
      rw [show (a.alloc v).2 = a.size from rfl,
        List.count_cons_of_ne hne]
      have : (a.alloc v).1.rc c = a.rc c := by
        simp [Arena.rc, Arena.alloc, hne]
      rw [this]
      exact hcnt
  · intro c hc
    have hne : c ≠ a.size := hfresh c hc
    simp [Arena.alloc, Arena.get, hne]

/-- Cloning a handle already held (`Arc::clone`) and attaching the new
handle preserves well-formedness; no value changes at all. -/
theorem inv_incRef {V : Type} (a : Arena V) (q : Ptr) (l : List Ptr)
    (hq : q ∈ l) (h : Inv a l) :
    Inv (a.incRef q) (q :: l) ∧ ∀ c, (a.incRef q).get c = a.get c := by
  obtain ⟨v, n, hcq, hn⟩ := inv_live a h hq
  have hinc : a.incRef q = a.write q (some (v, n + 1)) := by
    rw [Arena.incRef, hcq]
  have hrcq : a.rc q = n := by rw [Arena.rc, hcq]; rfl
  constructor
  · intro c hc
    have hc' : c ∈ l := by
      rcases List.mem_cons.mp hc with rfl | hcl
      · exact hq
      · exact hcl
    obtain ⟨hb, hcnt⟩ := h c hc'
    refine ⟨by rw [hinc]; simpa using hb, ?_⟩
    rw [hinc, Arena.rc_write]
    by_cases hcq2 : c = q
    · subst hcq2
      rw [if_pos rfl, List.count_cons_self]
      show l.count c + 1 ≤ ((some (v, n + 1)).map Prod.snd).getD 0
      rw [hrcq] at hcnt
      simp only [Option.map_some', Option.getD_some]
      omega
    · rw [if_neg hcq2, List.count_cons_of_ne hcq2]
      exact hcnt
  · intro c
    rw [hinc, Arena.get_write]
    by_cases hcq2 : c = q
    · subst hcq2
      rw [if_pos rfl, Arena.get, hcq]
      rfl
    · rw [if_neg hcq2]

/-- Dropping one handle from the head of a well-formed reference list
preserves well-formedness of the rest and every cell the rest holds. -/
theorem inv_decRef {V : Type} (a : Arena V) (q : Ptr) (l : List Ptr)
    (h : Inv a (q :: l)) :
    Inv (a.decRef q) l ∧ ∀ c ∈ l, (a.decRef q).get c = a.get c := by
  obtain ⟨v, n, hcq, hn⟩ := inv_live a h (List.mem_cons_self q l)
  have hrcq : a.rc q = n := by rw [Arena.rc, hcq]; rfl
  have hcnt_q : l.count q + 1 ≤ n := by
    have := (h q (List.mem_cons_self q l)).2
    rw [List.count_cons_self, hrcq] at this
    omega
  by_cases h1 : n ≤ 1
  · -- unique owner: the cell is freed, but no handle in `l` held it
    have hdec : a.decRef q = a.write q none := by
      simp only [Arena.decRef, hcq]
      rw [if_pos h1]
    have hq_not_l : q ∉ l := by
      intro hmem
      have := List.count_pos_iff.mpr hmem
      omega
    constructor
    · intro c hc
      obtain ⟨hb, hcnt⟩ := h c (List.mem_cons_of_mem q hc)
      have hne : c ≠ q := fun h2 => hq_not_l (h2 ▸ hc)
      refine ⟨by rw [hdec]; simpa using hb, ?_⟩
      rw [hdec, Arena.rc_write, if_neg hne]
      rw [List.count_cons_of_ne hne] at hcnt
      exact hcnt
    · intro c hc
      have hne : c ≠ q := fun h2 => hq_not_l (h2 ▸ hc)
      rw [hdec, Arena.get_write, if_neg hne]
  · -- shared: only the count moves down; every value stays
    have hdec : a.decRef q = a.write q (some (v, n - 1)) := by
      simp only [Arena.decRef, hcq]
      rw [if_neg h1]
    constructor
    · intro c hc
      obtain ⟨hb, hcnt⟩ := h c (List.mem_cons_of_mem q hc)
      refine ⟨by rw [hdec]; simpa using hb, ?_⟩
      rw [hdec, Arena.rc_write]
      by_cases hcq2 : c = q
      · subst hcq2
        rw [if_pos rfl]
        show _ ≤ ((some (v, n - 1)).map Prod.snd).getD 0
        rw [List.count_cons_self, hrcq] at hcnt
        simp only [Option.map_some', Option.getD_some]
        omega
      · rw [if_neg hcq2]
        rw [List.count_cons_of_ne hcq2] at hcnt
        exact hcnt
    · intro c hc
      rw [hdec, Arena.get_write]
      by_cases hcq2 : c = q
      · subst hcq2
        rw [if_pos rfl, Arena.get, hcq]
        rfl
      · rw [if_neg hcq2]

/-- `Arc::make_mut` + in-place update, with the updated handle replacing
the old one at the head of the reference list: well-formedness is
preserved and so is every cell the rest of the list holds — the heart of
copy-on-write isolation. -/
theorem inv_makeMut {V : Type} (a : Arena V) (q : Ptr) (f : V → V)
    (l : List Ptr) (h : Inv a (q :: l)) :
    Inv (a.makeMut q f).1 ((a.makeMut q f).2 :: l) ∧
    ∀ c ∈ l, (a.makeMut q f).1.get c = a.get c := by
  obtain ⟨v, n, hcq, hn⟩ := inv_live a h (List.mem_cons_self q l)
  have hrcq : a.rc q = n := by rw [Arena.rc, hcq]; rfl
  by_cases h1 : n ≤ 1
  · -- unique owner: update in place; no handle in `l` points here
    have hmm : a.makeMut q f = (a.write q (some (f v, 1)), q) := by
      simp only [Arena.makeMut, hcq]
      rw [if_pos h1]
    have hq_not_l : q ∉ l := by
      intro hmem
      have h2 := (h q (List.mem_cons_self q l)).2
      rw [List.count_cons_self, hrcq] at h2
      have := List.count_pos_iff.mpr hmem
      omega
    constructor
    · intro c hc
      have hc2 : c ∈ q :: l := by rw [hmm] at hc; exact hc
      rcases List.mem_cons.mp hc2 with rfl | hcl
      · refine ⟨?_, ?_⟩
        · rw [hmm]
          simpa using (h c (List.mem_cons_self c l)).1
        · rw [hmm]
          show ((c : Ptr) :: l).count c ≤ (a.write c (some (f v, 1))).rc c
          rw [List.count_cons_self, List.count_eq_zero.mpr hq_not_l,
            Arena.rc_write, if_pos rfl]
          simp
      · have hne : c ≠ q := fun h2 => hq_not_l (h2 ▸ hcl)
        obtain ⟨hb, hcnt⟩ := h c (List.mem_cons_of_mem q hcl)
        refine ⟨?_, ?_⟩
        · rw [hmm]
          simpa using hb
        · rw [hmm]
          show ((q : Ptr) :: l).count c ≤ (a.write q (some (f v, 1))).rc c
          rw [List.count_cons_of_ne hne, Arena.rc_write, if_neg hne]
          rw [List.count_cons_of_ne hne] at hcnt
          exact hcnt
    · intro c hc
      have hne : c ≠ q := fun h2 => hq_not_l (h2 ▸ hc)
      rw [hmm]
      show (a.write q (some (f v, 1))).get c = _
      rw [Arena.get_write, if_neg hne]
  · -- shared: drop the old handle (count stays positive), then allocate
    have hmm : a.makeMut q f = (a.decRef q).alloc (f v) := by
      simp only [Arena.makeMut, hcq]
      rw [if_neg h1]
    obtain ⟨hinv1, hget1⟩ := inv_decRef a q l h
    obtain ⟨hinv2, hget2⟩ := inv_alloc (a.decRef q) (f v) l hinv1
    rw [hmm]
    exact ⟨hinv2, fun c hc => (hget2 c hc).trans (hget1 c hc)⟩

/-- Dropping an `Option<Arc<_>>` handle (isolated at the head of the
reference list) preserves well-formedness and the cells of the rest. -/
theorem inv_dropOpt {V : Type} (a : Arena V) (o : Option Ptr)
    (rest : List Ptr) (h : Inv a (o.toList ++ rest)) :
    Inv (a.dropOpt o) rest ∧ ∀ c ∈ rest, (a.dropOpt o).get c = a.get c := by
  cases o with
  | none => exact ⟨h, fun c hc => rfl⟩
  | some q => exact inv_decRef a q rest h

/-- The common tail of the nameck/scopeck/verify accessors: update the
previous slot under `Arc::make_mut`, then publish the current slot as a
clone of it.  The resulting pointer replaces the old previous handle and
gains one extra handle. -/
theorem inv_makeMut_publish {V : Type} (a : Arena V) (q0 : Ptr)
    (f : V → V) (rest : List Ptr) (h : Inv a (q0 :: rest)) :
    Inv ((a.makeMut q0 f).1.incRef (a.makeMut q0 f).2)
        ((a.makeMut q0 f).2 :: (a.makeMut q0 f).2 :: rest) ∧
    ∀ c ∈ rest,
      ((a.makeMut q0 f).1.incRef (a.makeMut q0 f).2).get c = a.get c := by
  obtain ⟨h1, g1⟩ := inv_makeMut a q0 f rest h
  obtain ⟨h2, g2⟩ := inv_incRef (a.makeMut q0 f).1 (a.makeMut q0 f).2
    ((a.makeMut q0 f).2 :: rest) (List.mem_cons_self _ _) h1
  exact ⟨h2, fun c hc => (g2 c).trans (g1 c hc)⟩

/-- `updateShared` replaces the previous-slot handle by its result
pointer with two handles on it, preserving well-formedness and every
cell outside the handle it consumed. -/
theorem updateShared_frame {V : Type} (a : Arena V) (prev : Option Ptr)
    (init : V) (f : Arena V → V → V) (rest : List Ptr)
    (h : Inv a (prev.toList ++ rest)) :
    Inv (updateShared a prev init f).2
        ((updateShared a prev init f).1 ::
          (updateShared a prev init f).1 :: rest) ∧
    ∀ c ∈ rest, (updateShared a prev init f).2.get c = a.get c := by
  cases prev with
  | some q0 =>
    exact inv_makeMut_publish a q0 (f a) rest h
  | none =>
    obtain ⟨h1, g1⟩ := inv_alloc a init rest h
    obtain ⟨h2, g2⟩ := inv_makeMut_publish (a.alloc init).1
      (a.alloc init).2 (f (a.alloc init).1) rest h1
    exact ⟨h2, fun c hc => (g2 c hc).trans (g1 c hc)⟩

/-- `name_result` touches only the nameck slots. -/
theorem name_result_keeps {V : Type} [Inhabited V] (P : Passes V)
    (a : Arena V) (p : DbPtrs) :
    (name_result P a p).2.2.1.segments = p.segments ∧
    (name_result P a p).2.2.1.scopes = p.scopes ∧
    (name_result P a p).2.2.1.prev_scopes = p.prev_scopes ∧
    (name_result P a p).2.2.1.verify = p.verify ∧
    (name_result P a p).2.2.1.prev_verify = p.prev_verify ∧
    (name_result P a p).2.2.1.outline = p.outline ∧
    (name_result P a p).2.2.1.grammar = p.grammar ∧
    (name_result P a p).2.2.1.stmt_parse = p.stmt_parse := by
  cases hn : p.nameset <;> simp [name_result, hn]

/-- `scope_result` touches only the nameck and scopeck slots. -/
theorem scope_result_keeps {V : Type} [Inhabited V] (P : Passes V)
    (a : Arena V) (p : DbPtrs) :
    (scope_result P a p).2.2.1.segments = p.segments ∧
    (scope_result P a p).2.2.1.verify = p.verify ∧
    (scope_result P a p).2.2.1.prev_verify = p.prev_verify ∧
    (scope_result P a p).2.2.1.outline = p.outline ∧
    (scope_result P a p).2.2.1.grammar = p.grammar ∧
    (scope_result P a p).2.2.1.stmt_parse = p.stmt_parse := by
  cases hs : p.scopes with
  | some q => simp [scope_result, hs]
  | none =>
    simp [scope_result, hs, (name_result_keeps P a p).1,
      (name_result_keeps P a p).2.2.2.1,
      (name_result_keeps P a p).2.2.2.2.1,
      (name_result_keeps P a p).2.2.2.2.2.1,
      (name_result_keeps P a p).2.2.2.2.2.2.1,
      (name_result_keeps P a p).2.2.2.2.2.2.2]

/-- `name_result` preserves well-formedness of the whole reference
family and never changes a cell held outside the database it runs on. -/
theorem name_result_frame {V : Type} [Inhabited V] (P : Passes V)
    (a : Arena V) (p : DbPtrs) (L : List Ptr)
    (h : Inv a (ptrList p ++ L)) :
    Inv (name_result P a p).2.1 (ptrList (name_result P a p).2.2.1 ++ L) ∧
    ∀ c ∈ L, (name_result P a p).2.1.get c = a.get c := by
  cases hn : p.nameset with
  | some q =>
    constructor
    · simpa only [name_result, hn] using h
    · intro c _
      simp only [name_result, hn]
  | none =>
    have hperm1 : (ptrList p ++ L).Perm
        (p.prev_nameset.toList ++
          (ptrList { p with prev_nameset := none } ++ L)) := by
      rw [List.perm_iff_count]
      intro x
      simp [ptrList, List.count_append]
      omega
    obtain ⟨h2, g2⟩ := updateShared_frame a p.prev_nameset P.namesetNew
      (fun a1 ns => P.namesetUpdate ns (a1.readVal p.segments))
      (ptrList { p with prev_nameset := none } ++ L) (inv_perm a hperm1 h)
    have hres : name_result P a p =
        ((updateShared a p.prev_nameset P.namesetNew
            fun a1 ns => P.namesetUpdate ns (a1.readVal p.segments)).1,
          (updateShared a p.prev_nameset P.namesetNew
            fun a1 ns => P.namesetUpdate ns (a1.readVal p.segments)).2,
          { p with
              prev_nameset := some (updateShared a p.prev_nameset
                P.namesetNew fun a1 ns => P.namesetUpdate ns
                  (a1.readVal p.segments)).1,
              nameset := some (updateShared a p.prev_nameset P.namesetNew
                fun a1 ns => P.namesetUpdate ns (a1.readVal p.segments)).1 },
          [Pass.nameck]) := by
      simp [name_result, hn]
    rw [hres]
    constructor
    · refine inv_perm _ ?_ h2
      rw [List.perm_iff_count]
      intro x
      simp [ptrList, hn, List.count_append, List.count_cons]
      omega
    · intro c hc
      exact g2 c (List.mem_append_right _ hc)

/-- `scope_result` preserves well-formedness of the whole reference
family and never changes a cell held outside the database it runs on. -/
theorem scope_result_frame {V : Type} [Inhabited V] (P : Passes V)
    (a : Arena V) (p : DbPtrs) (L : List Ptr)
    (h : Inv a (ptrList p ++ L)) :
    Inv (scope_result P a p).2.1 (ptrList (scope_result P a p).2.2.1 ++ L) ∧
    ∀ c ∈ L, (scope_result P a p).2.1.get c = a.get c := by
  cases hs : p.scopes with
  | some q =>
    constructor
    · simpa only [scope_result, hs] using h
    · intro c _
      simp only [scope_result, hs]
  | none =>
    obtain ⟨h1, g1⟩ := name_result_frame P a p L h
    have hsc : (name_result P a p).2.2.1.scopes = none :=
      ((name_result_keeps P a p).2.1).trans hs
    have hperm1 : (ptrList (name_result P a p).2.2.1 ++ L).Perm
        ((name_result P a p).2.2.1.prev_scopes.toList ++
          (ptrList { (name_result P a p).2.2.1 with
            prev_scopes := none } ++ L)) := by
      rw [List.perm_iff_count]
      intro x
      simp [ptrList, List.count_append]
      omega
    obtain ⟨h2, g2⟩ := updateShared_frame (name_result P a p).2.1
      (name_result P a p).2.2.1.prev_scopes P.scopeDefault
      (fun a1 ns => P.scopeCheck ns
        (a1.readVal (name_result P a p).2.2.1.segments)
        (a1.readVal (name_result P a p).2.2.1.nameset))
      (ptrList { (name_result P a p).2.2.1 with prev_scopes := none } ++ L)
      (inv_perm _ hperm1 h1)
    have hres : scope_result P a p =
        ((updateShared (name_result P a p).2.1
            (name_result P a p).2.2.1.prev_scopes P.scopeDefault
            fun a1 ns => P.scopeCheck ns
              (a1.readVal (name_result P a p).2.2.1.segments)
              (a1.readVal (name_result P a p).2.2.1.nameset)).1,
          (updateShared (name_result P a p).2.1
            (name_result P a p).2.2.1.prev_scopes P.scopeDefault
            fun a1 ns => P.scopeCheck ns
              (a1.readVal (name_result P a p).2.2.1.segments)
              (a1.readVal (name_result P a p).2.2.1.nameset)).2,
          { (name_result P a p).2.2.1 with
              prev_scopes := some (updateShared (name_result P a p).2.1
                (name_result P a p).2.2.1.prev_scopes P.scopeDefault
                fun a1 ns => P.scopeCheck ns
                  (a1.readVal (name_result P a p).2.2.1.segments)
                  (a1.readVal (name_result P a p).2.2.1.nameset)).1,
              scopes := some (updateShared (name_result P a p).2.1
                (name_result P a p).2.2.1.prev_scopes P.scopeDefault
                fun a1 ns => P.scopeCheck ns
                  (a1.readVal (name_result P a p).2.2.1.segments)
                  (a1.readVal (name_result P a p).2.2.1.nameset)).1 },
          (name_result P a p).2.2.2 ++ [Pass.scopeck]) := by
      simp [scope_result, hs]
    rw [hres]
    constructor
    · refine inv_perm _ ?_ h2
      rw [List.perm_iff_count]
      intro x
      simp [ptrList, hsc, List.count_append, List.count_cons]
      omega
    · intro c hc
      exact (g2 c (List.mem_append_right _ hc)).trans (g1 c hc)

/-- `verify_result` preserves well-formedness of the whole reference
family and never changes a cell held outside the database it runs on. -/
theorem verify_result_frame {V : Type} [Inhabited V] (P : Passes V)
    (a : Arena V) (p : DbPtrs) (L : List Ptr)
    (h : Inv a (ptrList p ++ L)) :
    Inv (verify_result P a p).2.1
      (ptrList (verify_result P a p).2.2.1 ++ L) ∧
    ∀ c ∈ L, (verify_result P a p).2.1.get c = a.get c := by
  cases hv : p.verify with
  | some q =>
    constructor
    · simpa only [verify_result, hv] using h
    · intro c _
      simp only [verify_result, hv]
  | none =>
    obtain ⟨h1, g1⟩ := name_result_frame P a p L h
    obtain ⟨h1b, g1b⟩ := scope_result_frame P (name_result P a p).2.1
      (name_result P a p).2.2.1 L h1
    have hvc : (scope_result P (name_result P a p).2.1
        (name_result P a p).2.2.1).2.2.1.verify = none := by
      rw [(scope_result_keeps P _ _).2.1, (name_result_keeps P a p).2.2.2.1,
        hv]
    have hperm1 : (ptrList (scope_result P (name_result P a p).2.1
          (name_result P a p).2.2.1).2.2.1 ++ L).Perm
        ((scope_result P (name_result P a p).2.1
            (name_result P a p).2.2.1).2.2.1.prev_verify.toList ++
          (ptrList { (scope_result P (name_result P a p).2.1
              (name_result P a p).2.2.1).2.2.1 with
            prev_verify := none } ++ L)) := by
      rw [List.perm_iff_count]
      intro x
      simp [ptrList, List.count_append]
      omega
    obtain ⟨h2, g2⟩ := updateShared_frame
      (scope_result P (name_result P a p).2.1 (name_result P a p).2.2.1).2.1
      (scope_result P (name_result P a p).2.1
        (name_result P a p).2.2.1).2.2.1.prev_verify P.verifyDefault
      (fun a1 vr => P.verifyRun vr
        (a1.readVal (scope_result P (name_result P a p).2.1
          (name_result P a p).2.2.1).2.2.1.segments)
        (a1.readVal (scope_result P (name_result P a p).2.1
          (name_result P a p).2.2.1).2.2.1.nameset)
        (a1.readVal (scope_result P (name_result P a p).2.1
          (name_result P a p).2.2.1).2.2.1.scopes))
      (ptrList { (scope_result P (name_result P a p).2.1
          (name_result P a p).2.2.1).2.2.1 with prev_verify := none } ++ L)
      (inv_perm _ hperm1 h1b)
    have hres : verify_result P a p =
        ((updateShared (scope_result P (name_result P a p).2.1
            (name_result P a p).2.2.1).2.1
            (scope_result P (name_result P a p).2.1
              (name_result P a p).2.2.1).2.2.1.prev_verify P.verifyDefault
            fun a1 vr => P.verifyRun vr
              (a1.readVal (scope_result P (name_result P a p).2.1
                (name_result P a p).2.2.1).2.2.1.segments)
              (a1.readVal (scope_result P (name_result P a p).2.1
                (name_result P a p).2.2.1).2.2.1.nameset)
              (a1.readVal (scope_result P (name_result P a p).2.1
                (name_result P a p).2.2.1).2.2.1.scopes)).1,
          (updateShared (scope_result P (name_result P a p).2.1
            (name_result P a p).2.2.1).2.1
            (scope_result P (name_result P a p).2.1
              (name_result P a p).2.2.1).2.2.1.prev_verify P.verifyDefault
            fun a1 vr => P.verifyRun vr
              (a1.readVal (scope_result P (name_result P a p).2.1
                (name_result P a p).2.2.1).2.2.1.segments)
              (a1.readVal (scope_result P (name_result P a p).2.1
                (name_result P a p).2.2.1).2.2.1.nameset)
              (a1.readVal (scope_result P (name_result P a p).2.1
                (name_result P a p).2.2.1).2.2.1.scopes)).2,
          { (scope_result P (name_result P a p).2.1
              (name_result P a p).2.2.1).2.2.1 with
              prev_verify := some (updateShared (scope_result P
                (name_result P a p).2.1 (name_result P a p).2.2.1).2.1
                (scope_result P (name_result P a p).2.1
                  (name_result P a p).2.2.1).2.2.1.prev_verify
                P.verifyDefault
                fun a1 vr => P.verifyRun vr
                  (a1.readVal (scope_result P (name_result P a p).2.1
                    (name_result P a p).2.2.1).2.2.1.segments)
                  (a1.readVal (scope_result P (name_result P a p).2.1
                    (name_result P a p).2.2.1).2.2.1.nameset)
                  (a1.readVal (scope_result P (name_result P a p).2.1
                    (name_result P a p).2.2.1).2.2.1.scopes)).1,
              verify := some (updateShared (scope_result P
                (name_result P a p).2.1 (name_result P a p).2.2.1).2.1
                (scope_result P (name_result P a p).2.1
                  (name_result P a p).2.2.1).2.2.1.prev_verify
                P.verifyDefault
                fun a1 vr => P.verifyRun vr
                  (a1.readVal (scope_result P (name_result P a p).2.1
                    (name_result P a p).2.2.1).2.2.1.segments)
                  (a1.readVal (scope_result P (name_result P a p).2.1
                    (name_result P a p).2.2.1).2.2.1.nameset)
                  (a1.readVal (scope_result P (name_result P a p).2.1
                    (name_result P a p).2.2.1).2.2.1.scopes)).1 },
          (name_result P a p).2.2.2 ++
            (scope_result P (name_result P a p).2.1
              (name_result P a p).2.2.1).2.2.2 ++ [Pass.verifyP]) := by
      simp [verify_result, hv]
    rw [hres]
    constructor
    · refine inv_perm _ ?_ h2
      rw [List.perm_iff_count]
      intro x
      simp [ptrList, hvc, List.count_append, List.count_cons]
      omega
    · intro c hc
      exact ((g2 c (List.mem_append_right _ hc)).trans (g1b c hc)).trans
        (g1 c hc)

/-- `outline_result` preserves well-formedness of the whole reference
family and never changes a cell held outside the database it runs on. -/
theorem outline_result_frame {V : Type} [Inhabited V] (P : Passes V)
    (a : Arena V) (p : DbPtrs) (L : List Ptr)
    (h : Inv a (ptrList p ++ L)) :
    Inv (outline_result P a p).2.1
      (ptrList (outline_result P a p).2.2.1 ++ L) ∧
    ∀ c ∈ L, (outline_result P a p).2.1.get c = a.get c := by
  cases ho : p.outline with
  | some q =>
    constructor
    · simpa only [outline_result, ho] using h
    · intro c _
      simp only [outline_result, ho]
  | none =>
    obtain ⟨h1, g1⟩ := inv_alloc a (P.outlineBuild (a.readVal p.segments))
      (ptrList p ++ L) h
    have hres : outline_result P a p =
        ((a.alloc (P.outlineBuild (a.readVal p.segments))).2,
          (a.alloc (P.outlineBuild (a.readVal p.segments))).1,
          { p with
              outline := some (a.alloc (P.outlineBuild
                (a.readVal p.segments))).2 },
          [Pass.outlineP]) := by
      simp [outline_result, ho]
    rw [hres]
    constructor
    · refine inv_perm _ ?_ h1
      rw [List.perm_iff_count]
      intro x
      simp [ptrList, ho, List.count_append, List.count_cons]
      omega
    · intro c hc
      exact g1 c (List.mem_append_right _ hc)

/-- `grammar_result` touches only the nameck, scopeck and grammar
slots. -/
theorem grammar_result_keeps {V : Type} [Inhabited V] (P : Passes V)
    (a : Arena V) (p : DbPtrs) :
    (grammar_result P a p).2.2.1.segments = p.segments ∧
    (grammar_result P a p).2.2.1.verify = p.verify ∧
    (grammar_result P a p).2.2.1.prev_verify = p.prev_verify ∧
    (grammar_result P a p).2.2.1.outline = p.outline ∧
    (grammar_result P a p).2.2.1.stmt_parse = p.stmt_parse := by
  cases hg : p.grammar with
  | some q => simp [grammar_result, hg]
  | none =>
    simp [grammar_result, hg,
      (scope_result_keeps P (name_result P a p).2.1
        (name_result P a p).2.2.1).1,
      (scope_result_keeps P (name_result P a p).2.1
        (name_result P a p).2.2.1).2.1,
      (scope_result_keeps P (name_result P a p).2.1
        (name_result P a p).2.2.1).2.2.1,
      (scope_result_keeps P (name_result P a p).2.1
        (name_result P a p).2.2.1).2.2.2.1,
      (scope_result_keeps P (name_result P a p).2.1
        (name_result P a p).2.2.1).2.2.2.2.2,
      (name_result_keeps P a p).1, (name_result_keeps P a p).2.2.2.1,
      (name_result_keeps P a p).2.2.2.2.1,
      (name_result_keeps P a p).2.2.2.2.2.1,
      (name_result_keeps P a p).2.2.2.2.2.2.2]

/-- `grammar_result` preserves well-formedness of the whole reference
family and never changes a cell held outside the database it runs on. -/
theorem grammar_result_frame {V : Type} [Inhabited V] (P : Passes V)
    (a : Arena V) (p : DbPtrs) (L : List Ptr)
    (h : Inv a (ptrList p ++ L)) :
    Inv (grammar_result P a p).2.1
      (ptrList (grammar_result P a p).2.2.1 ++ L) ∧
    ∀ c ∈ L, (grammar_result P a p).2.1.get c = a.get c := by
  cases hg : p.grammar with
  | some q =>
    constructor
    · simpa only [grammar_result, hg] using h
    · intro c _
      simp only [grammar_result, hg]
  | none =>
    obtain ⟨h1, g1⟩ := name_result_frame P a p L h
    obtain ⟨h1b, g1b⟩ := scope_result_frame P (name_result P a p).2.1
      (name_result P a p).2.2.1 L h1
    have hgc : (scope_result P (name_result P a p).2.1
        (name_result P a p).2.2.1).2.2.1.grammar = none := by
      rw [(scope_result_keeps P _ _).2.2.2.2.1,
        (name_result_keeps P a p).2.2.2.2.2.2.1, hg]
    obtain ⟨h2, g2⟩ := inv_alloc
      (scope_result P (name_result P a p).2.1 (name_result P a p).2.2.1).2.1
      (P.grammarBuild
        ((scope_result P (name_result P a p).2.1
          (name_result P a p).2.2.1).2.1.readVal
          (scope_result P (name_result P a p).2.1
            (name_result P a p).2.2.1).2.2.1.segments)
        ((scope_result P (name_result P a p).2.1
          (name_result P a p).2.2.1).2.1.readVal
          (scope_result P (name_result P a p).2.1
            (name_result P a p).2.2.1).2.2.1.nameset))
      (ptrList (scope_result P (name_result P a p).2.1
        (name_result P a p).2.2.1).2.2.1 ++ L) h1b
    have hres : grammar_result P a p =
        (((scope_result P (name_result P a p).2.1
            (name_result P a p).2.2.1).2.1.alloc
            (P.grammarBuild
              ((scope_result P (name_result P a p).2.1
                (name_result P a p).2.2.1).2.1.readVal
                (scope_result P (name_result P a p).2.1
                  (name_result P a p).2.2.1).2.2.1.segments)
              ((scope_result P (name_result P a p).2.1
                (name_result P a p).2.2.1).2.1.readVal
                (scope_result P (name_result P a p).2.1
                  (name_result P a p).2.2.1).2.2.1.nameset))).2,
          ((scope_result P (name_result P a p).2.1
            (name_result P a p).2.2.1).2.1.alloc
            (P.grammarBuild
              ((scope_result P (name_result P a p).2.1
                (name_result P a p).2.2.1).2.1.readVal
                (scope_result P (name_result P a p).2.1
                  (name_result P a p).2.2.1).2.2.1.segments)
              ((scope_result P (name_result P a p).2.1
                (name_result P a p).2.2.1).2.1.readVal
                (scope_result P (name_result P a p).2.1
                  (name_result P a p).2.2.1).2.2.1.nameset))).1,
          { (scope_result P (name_result P a p).2.1
              (name_result P a p).2.2.1).2.2.1 with
              grammar := some ((scope_result P (name_result P a p).2.1
                (name_result P a p).2.2.1).2.1.alloc
                (P.grammarBuild
                  ((scope_result P (name_result P a p).2.1
                    (name_result P a p).2.2.1).2.1.readVal
                    (scope_result P (name_result P a p).2.1
                      (name_result P a p).2.2.1).2.2.1.segments)
                  ((scope_result P (name_result P a p).2.1
                    (name_result P a p).2.2.1).2.1.readVal
                    (scope_result P (name_result P a p).2.1
                      (name_result P a p).2.2.1).2.2.1.nameset))).2 },
          (name_result P a p).2.2.2 ++
            (scope_result P (name_result P a p).2.1
              (name_result P a p).2.2.1).2.2.2 ++ [Pass.grammarP]) := by
      simp [grammar_result, hg]
    rw [hres]
    constructor
    · refine inv_perm _ ?_ h2
      rw [List.perm_iff_count]
      intro x
      simp [ptrList, hgc, List.count_append, List.count_cons]
      omega
    · intro c hc
      exact ((g2 c (List.mem_append_right _ hc)).trans (g1b c hc)).trans
        (g1 c hc)

/-- `stmt_parse_result` preserves well-formedness of the whole
reference family and never changes a cell held outside the database it
runs on. -/
theorem stmt_parse_result_frame {V : Type} [Inhabited V] (P : Passes V)
    (a : Arena V) (p : DbPtrs) (L : List Ptr)
    (h : Inv a (ptrList p ++ L)) :
    Inv (stmt_parse_result P a p).2.1
      (ptrList (stmt_parse_result P a p).2.2.1 ++ L) ∧
    ∀ c ∈ L, (stmt_parse_result P a p).2.1.get c = a.get c := by
  cases hst : p.stmt_parse with
  | some q =>
    constructor
    · simpa only [stmt_parse_result, hst] using h
    · intro c _
      simp only [stmt_parse_result, hst]
  | none =>
    obtain ⟨h1, g1⟩ := name_result_frame P a p L h
    obtain ⟨h1b, g1b⟩ := scope_result_frame P (name_result P a p).2.1
      (name_result P a p).2.2.1 L h1
    obtain ⟨h1c, g1c⟩ := grammar_result_frame P
      (scope_result P (name_result P a p).2.1 (name_result P a p).2.2.1).2.1
      (scope_result P (name_result P a p).2.1
        (name_result P a p).2.2.1).2.2.1 L h1b
    have hstc : (grammar_result P
        (scope_result P (name_result P a p).2.1
          (name_result P a p).2.2.1).2.1
        (scope_result P (name_result P a p).2.1
          (name_result P a p).2.2.1).2.2.1).2.2.1.stmt_parse = none := by
      rw [(grammar_result_keeps P _ _).2.2.2.2,
        (scope_result_keeps P _ _).2.2.2.2.2,
        (name_result_keeps P a p).2.2.2.2.2.2.2, hst]
    obtain ⟨h2, g2⟩ := inv_alloc (grammar_result P
        (scope_result P (name_result P a p).2.1
          (name_result P a p).2.2.1).2.1
        (scope_result P (name_result P a p).2.1
          (name_result P a p).2.2.1).2.2.1).2.1 _
      (ptrList (grammar_result P
        (scope_result P (name_result P a p).2.1
          (name_result P a p).2.2.1).2.1
        (scope_result P (name_result P a p).2.1
          (name_result P a p).2.2.1).2.2.1).2.2.1 ++ L) h1c
    constructor
    · simp only [stmt_parse_result, hst]
      refine inv_perm _ ?_ h2
      rw [List.perm_iff_count]
      intro x
      simp [ptrList, hstc, List.count_append, List.count_cons]
      omega
    · intro c hc
      simp only [stmt_parse_result, hst]
      exact (((g2 c (List.mem_append_right _ hc)).trans (g1c c hc)).trans
        (g1b c hc)).trans (g1 c hc)

/-- The invalidation tail of `parse` preserves well-formedness and
never changes a cell held outside the database it runs on. -/
theorem invalidate_frame {V : Type} (a : Arena V) (p : DbPtrs)
    (L : List Ptr) (h : Inv a (ptrList p ++ L)) :
    Inv (invalidate a p).1 (ptrList (invalidate a p).2 ++ L) ∧
    ∀ c ∈ L, (invalidate a p).1.get c = a.get c := by
  have e1 : (ptrList p ++ L).Perm
      (p.nameset.toList ++ (ptrList { p with nameset := none } ++ L)) := by
    rw [List.perm_iff_count]
    intro x
    simp [ptrList, List.count_append]
    omega
  obtain ⟨h1, g1⟩ := inv_dropOpt a p.nameset
    (ptrList { p with nameset := none } ++ L) (inv_perm _ e1 h)
  have e2 : (ptrList { p with nameset := none } ++ L).Perm
      (p.scopes.toList ++
        (ptrList { p with nameset := none, scopes := none } ++ L)) := by
    rw [List.perm_iff_count]
    intro x
    simp [ptrList, List.count_append]
    omega
  obtain ⟨h2, g2⟩ := inv_dropOpt _ p.scopes
    (ptrList { p with nameset := none, scopes := none } ++ L)
    (inv_perm _ e2 h1)
  have e3 : (ptrList { p with nameset := none, scopes := none } ++ L).Perm
      (p.verify.toList ++
        (ptrList { p with nameset := none, scopes := none, verify := none } ++ L)) := by
    rw [List.perm_iff_count]
    intro x
    simp [ptrList, List.count_append]
    omega
  obtain ⟨h3, g3⟩ := inv_dropOpt _ p.verify
    (ptrList { p with nameset := none, scopes := none, verify := none } ++ L)
    (inv_perm _ e3 h2)
  have e4 : (ptrList { p with nameset := none, scopes := none, verify := none } ++ L).Perm
      (p.outline.toList ++
        (ptrList { p with nameset := none, scopes := none, verify := none, outline := none } ++ L)) := by
    rw [List.perm_iff_count]
    intro x
    simp [ptrList, List.count_append]
    omega
  obtain ⟨h4, g4⟩ := inv_dropOpt _ p.outline
    (ptrList { p with nameset := none, scopes := none, verify := none, outline := none } ++ L)
    (inv_perm _ e4 h3)
  have e5 : (ptrList { p with nameset := none, scopes := none, verify := none, outline := none } ++ L).Perm
      (p.grammar.toList ++
        (ptrList { p with nameset := none, scopes := none, verify := none, outline := none, grammar := none } ++ L)) := by
    rw [List.perm_iff_count]
    intro x
    simp [ptrList, List.count_append]
    omega
  obtain ⟨h5, g5⟩ := inv_dropOpt _ p.grammar
    (ptrList { p with nameset := none, scopes := none, verify := none, outline := none, grammar := none } ++ L)
    (inv_perm _ e5 h4)
  constructor
  · simp only [invalidate]
    exact h5
  · intro c hc
    simp only [invalidate]
    exact ((((g5 c (List.mem_append_right _ hc)).trans
      (g4 c (List.mem_append_right _ hc))).trans
      (g3 c (List.mem_append_right _ hc))).trans
      (g2 c (List.mem_append_right _ hc))).trans
      (g1 c (List.mem_append_right _ hc))

/-- `Database::parse` preserves well-formedness and never changes a cell
held outside the database it runs on — the heart of copy-on-write
isolation between clones. -/
theorem db_parse_frame {V : Type} [Inhabited V] (P : Passes V) (input : V)
    (a : Arena V) (p : DbPtrs) (L : List Ptr)
    (h : Inv a (ptrList p ++ L)) :
    Inv (db_parse P input a p).1 (ptrList (db_parse P input a p).2 ++ L) ∧
    ∀ c ∈ L, (db_parse P input a p).1.get c = a.get c := by
  cases hseg : p.segments with
  | none =>
    simp only [db_parse, hseg]
    exact invalidate_frame a p L h
  | some sp =>
    have e : (ptrList p ++ L).Perm
        (sp :: (ptrList { p with segments := none } ++ L)) := by
      rw [List.perm_iff_count]
      intro x
      simp [ptrList, hseg, List.count_append, List.count_cons]
    obtain ⟨h1, g1⟩ := inv_makeMut a sp (fun sv => P.segRead sv input)
      (ptrList { p with segments := none } ++ L) (inv_perm _ e h)
    have e2 : ((a.makeMut sp fun sv => P.segRead sv input).2 ::
          (ptrList { p with segments := none } ++ L)).Perm
        (ptrList { p with segments := some (a.makeMut sp fun sv => P.segRead sv input).2 } ++ L) := by
      rw [List.perm_iff_count]
      intro x
      simp [ptrList, List.count_append, List.count_cons]
    obtain ⟨h2, g2⟩ := invalidate_frame
      (a.makeMut sp fun sv => P.segRead sv input).1
      { p with segments := some (a.makeMut sp fun sv => P.segRead sv input).2 }
      L (inv_perm _ e2 h1)
    constructor
    · simp only [db_parse, hseg]
      exact h2
    · intro c hc
      simp only [db_parse, hseg]
      exact (g2 c hc).trans (g1 c (List.mem_append_right _ hc))

/-- Any single mutating operation preserves well-formedness and never
changes a cell held outside the database it runs on. -/
theorem applyOp_frame {V : Type} [Inhabited V] (P : Passes V) (op : DbOp V)
    (a : Arena V) (p : DbPtrs) (L : List Ptr)
    (h : Inv a (ptrList p ++ L)) :
    Inv (applyOp P op a p).1 (ptrList (applyOp P op a p).2 ++ L) ∧
    ∀ c ∈ L, (applyOp P op a p).1.get c = a.get c := by
  cases op with
  | parseOp input => exact db_parse_frame P input a p L h
  | nameOp => exact name_result_frame P a p L h
  | scopeOp => exact scope_result_frame P a p L h
  | verifyOp => exact verify_result_frame P a p L h
  | outlineOp => exact outline_result_frame P a p L h
  | grammarOp => exact grammar_result_frame P a p L h
  | stmtOp => exact stmt_parse_result_frame P a p L h

/-- Cloning every handle of a list in turn (`Arc::clone` per field)
keeps well-formedness with the whole list duplicated, and changes no
value. -/
theorem inv_incRef_fold {V : Type} : ∀ (l : List Ptr) (a : Arena V)
    (k : List Ptr), Inv a (l ++ k) →
    Inv (l.foldl Arena.incRef a) (l ++ (l ++ k)) ∧
    ∀ c, (l.foldl Arena.incRef a).get c = a.get c
  | [], a, k, h => ⟨h, fun _ => rfl⟩
  | q :: l, a, k, h => by
    obtain ⟨h1, g1⟩ := inv_incRef a q (q :: (l ++ k))
      (List.mem_cons_self q _) h
    have hperm : (q :: q :: (l ++ k)).Perm (l ++ (q :: q :: k)) := by
      rw [List.perm_iff_count]
      intro x
      simp [List.count_append, List.count_cons]
      omega
    obtain ⟨h2, g2⟩ := inv_incRef_fold l (a.incRef q) (q :: q :: k)
      (inv_perm _ hperm h1)
    constructor
    · refine inv_perm _ ?_ h2
      rw [List.perm_iff_count]
      intro x
      simp [List.count_append, List.count_cons]
      omega
    · exact fun c => (g2 c).trans (g1 c)

/-- `Database::clone` (modelled from the spec): the clone holds the same
pointers, the combined reference family stays well-formed, and no value
changes. -/
theorem db_clone_ok {V : Type} (a : Arena V) (p : DbPtrs)
    (h : Inv a (ptrList p)) :
    Inv (db_clone a p).1 (ptrList p ++ ptrList p) ∧
    ∀ c, (db_clone a p).1.get c = a.get c := by
  obtain ⟨h1, g1⟩ := inv_incRef_fold (ptrList p) a []
    (by simpa using h)
  exact ⟨by simpa using h1, g1⟩

/-- Two stores that agree on every cell a database holds give it the
same observable pass results. -/
theorem obs_congr {V : Type} (a a2 : Arena V) (p : DbPtrs)
    (hg : ∀ c ∈ ptrList p, a2.get c = a.get c) : obs a2 p = obs a p := by
  have key : ∀ (o : Option Ptr), o.toList ⊆ ptrList p →
      o.bind a2.get = o.bind a.get := by
    intro o ho
    cases o with
    | none => rfl
    | some q =>
      have hq : q ∈ ptrList p := ho (by simp)
      simp [hg q hq]
  simp only [obs]
  rw [key p.segments (by intro x hx; simp [ptrList]; simp at hx; tauto),
    key p.prev_nameset (by intro x hx; simp [ptrList]; simp at hx; tauto),
    key p.nameset (by intro x hx; simp [ptrList]; simp at hx; tauto),
    key p.prev_scopes (by intro x hx; simp [ptrList]; simp at hx; tauto),
    key p.scopes (by intro x hx; simp [ptrList]; simp at hx; tauto),
    key p.prev_verify (by intro x hx; simp [ptrList]; simp at hx; tauto),
    key p.verify (by intro x hx; simp [ptrList]; simp at hx; tauto),
    key p.outline (by intro x hx; simp [ptrList]; simp at hx; tauto),
    key p.grammar (by intro x hx; simp [ptrList]; simp at hx; tauto),
    key p.stmt_parse (by intro x hx; simp [ptrList]; simp at hx; tauto)]

/-- C5: for a well-formed database and its clone (which shares the same
handles), cloning changes no observable pass result, and any single
mutating operation — `parse` or any pass accessor — run on one of the
two databases leaves every observable pass result of the other
unchanged: `Arc::make_mut` copies shared cells instead of writing
through them, and dropped handles never free a cell the other database
still holds. -/
theorem c5_clone_isolation {V : Type} [Inhabited V] (P : Passes V)
    (a : Arena V) (p : DbPtrs) (op : DbOp V)
    (hInv : Inv a (ptrList p)) :
    obs (applyOp P op (db_clone a p).1 p).1 p = obs (db_clone a p).1 p ∧
    obs (db_clone a p).1 p = obs a p := by
  obtain ⟨hcl, gcl⟩ := db_clone_ok a p hInv
  obtain ⟨hop, gop⟩ := applyOp_frame P op (db_clone a p).1 p (ptrList p) hcl
  exact ⟨obs_congr _ _ p gop, obs_congr _ _ p fun c _ => gcl c⟩

/-- C5 witness: a concrete one-cell database (the `db_new` state over
`Nat` payloads), cloned, then `parse` run on one clone. -/
theorem c5_witness :
    obs (applyOp natPasses (DbOp.parseOp 7)
        (db_clone (⟨fun c => if c = 0 then some (10, 1) else none, 1⟩ :
          Arena Nat)
          ⟨some 0, none, none, none, none, none, none, none, none, none⟩).1
        ⟨some 0, none, none, none, none, none, none, none, none, none⟩).1
      ⟨some 0, none, none, none, none, none, none, none, none, none⟩ =
    obs (db_clone (⟨fun c => if c = 0 then some (10, 1) else none, 1⟩ :
        Arena Nat)
        ⟨some 0, none, none, none, none, none, none, none, none, none⟩).1
      ⟨some 0, none, none, none, none, none, none, none, none, none⟩ ∧
    obs (db_clone (⟨fun c => if c = 0 then some (10, 1) else none, 1⟩ :
        Arena Nat)
        ⟨some 0, none, none, none, none, none, none, none, none, none⟩).1
      ⟨some 0, none, none, none, none, none, none, none, none, none⟩ =
    obs (⟨fun c => if c = 0 then some (10, 1) else none, 1⟩ : Arena Nat)
      ⟨some 0, none, none, none, none, none, none, none, none, none⟩ :=
  c5_clone_isolation natPasses
    (⟨fun c => if c = 0 then some (10, 1) else none, 1⟩ : Arena Nat)
    ⟨some 0, none, none, none, none, none, none, none, none, none⟩
    (DbOp.parseOp 7) (by decide)

/-- With its current slot set, `name_result` returns that very pointer and
changes nothing, computing no pass. -/
theorem name_result_cached {V : Type} [Inhabited V] (P : Passes V)
    (a : Arena V) (p : DbPtrs) (q : Ptr) (h : p.nameset = some q) :
    name_result P a p = (q, a, p, []) := by
  simp [name_result, h]

/-- After `name_result`, the current slot holds exactly the returned
pointer. -/
theorem name_result_post {V : Type} [Inhabited V] (P : Passes V)
    (a : Arena V) (p : DbPtrs) :
    (name_result P a p).2.2.1.nameset = some (name_result P a p).1 := by
  cases hc : p.nameset <;> simp [name_result, hc]

/-- With its current slot set, `scope_result` returns that very pointer and
changes nothing, computing no pass. -/
theorem scope_result_cached {V : Type} [Inhabited V] (P : Passes V)
    (a : Arena V) (p : DbPtrs) (q : Ptr) (h : p.scopes = some q) :
    scope_result P a p = (q, a, p, []) := by
  simp [scope_result, h]

/-- After `scope_result`, the current slot holds exactly the returned
pointer. -/
theorem scope_result_post {V : Type} [Inhabited V] (P : Passes V)
    (a : Arena V) (p : DbPtrs) :
    (scope_result P a p).2.2.1.scopes = some (scope_result P a p).1 := by
  cases hc : p.scopes <;> simp [scope_result, hc]

/-- With its current slot set, `verify_result` returns that very pointer and
changes nothing, computing no pass. -/
theorem verify_result_cached {V : Type} [Inhabited V] (P : Passes V)
    (a : Arena V) (p : DbPtrs) (q : Ptr) (h : p.verify = some q) :
    verify_result P a p = (q, a, p, []) := by
  simp [verify_result, h]

/-- After `verify_result`, the current slot holds exactly the returned
pointer. -/
theorem verify_result_post {V : Type} [Inhabited V] (P : Passes V)
    (a : Arena V) (p : DbPtrs) :
    (verify_result P a p).2.2.1.verify = some (verify_result P a p).1 := by
  cases hc : p.verify <;> simp [verify_result, hc]

/-- With its current slot set, `outline_result` returns that very pointer and
changes nothing, computing no pass. -/
theorem outline_result_cached {V : Type} [Inhabited V] (P : Passes V)
    (a : Arena V) (p : DbPtrs) (q : Ptr) (h : p.outline = some q) :
    outline_result P a p = (q, a, p, []) := by
  simp [outline_result, h]

/-- After `outline_result`, the current slot holds exactly the returned
pointer. -/
theorem outline_result_post {V : Type} [Inhabited V] (P : Passes V)
    (a : Arena V) (p : DbPtrs) :
    (outline_result P a p).2.2.1.outline = some (outline_result P a p).1 := by
  cases hc : p.outline <;> simp [outline_result, hc]

/-- With its current slot set, `grammar_result` returns that very pointer and
changes nothing, computing no pass. -/
theorem grammar_result_cached {V : Type} [Inhabited V] (P : Passes V)
    (a : Arena V) (p : DbPtrs) (q : Ptr) (h : p.grammar = some q) :
    grammar_result P a p = (q, a, p, []) := by
  simp [grammar_result, h]

/-- After `grammar_result`, the current slot holds exactly the returned
pointer. -/
theorem grammar_result_post {V : Type} [Inhabited V] (P : Passes V)
    (a : Arena V) (p : DbPtrs) :
    (grammar_result P a p).2.2.1.grammar = some (grammar_result P a p).1 := by
  cases hc : p.grammar <;> simp [grammar_result, hc]

/-- With its current slot set, `stmt_parse_result` returns that very pointer and
changes nothing, computing no pass. -/
theorem stmt_parse_result_cached {V : Type} [Inhabited V] (P : Passes V)
    (a : Arena V) (p : DbPtrs) (q : Ptr) (h : p.stmt_parse = some q) :
    stmt_parse_result P a p = (q, a, p, []) := by
  simp [stmt_parse_result, h]

/-- After `stmt_parse_result`, the current slot holds exactly the returned
pointer. -/
theorem stmt_parse_result_post {V : Type} [Inhabited V] (P : Passes V)
    (a : Arena V) (p : DbPtrs) :
    (stmt_parse_result P a p).2.2.1.stmt_parse = some (stmt_parse_result P a p).1 := by
  cases hc : p.stmt_parse <;> simp [stmt_parse_result, hc]

/-- C6: calling any pass accessor twice with no intervening `parse`
makes the second call return the same shared handle — the very same
`Arc` allocation address — while leaving the store and every slot
untouched and recomputing no pass (its pass log is empty). -/
theorem c6_second_call_same_handle {V : Type} [Inhabited V]
    (P : Passes V) (acc : Acc) (a : Arena V) (p : DbPtrs) :
    runAcc P acc (runAcc P acc a p).2.1 (runAcc P acc a p).2.2.1 =
      ((runAcc P acc a p).1, (runAcc P acc a p).2.1,
        (runAcc P acc a p).2.2.1, []) := by
  cases acc with
  | nameA => exact name_result_cached P _ _ _ (name_result_post P a p)
  | scopeA => exact scope_result_cached P _ _ _ (scope_result_post P a p)
  | verifyA => exact verify_result_cached P _ _ _ (verify_result_post P a p)
  | outlineA =>
    exact outline_result_cached P _ _ _ (outline_result_post P a p)
  | grammarA =>
    exact grammar_result_cached P _ _ _ (grammar_result_post P a p)
  | stmtA =>
    exact stmt_parse_result_cached P _ _ _ (stmt_parse_result_post P a p)

/-- C2 witness: the concrete `Nat`-payload pass family. -/
theorem c2_witness :
    (let ap := db_new natPasses
     let r := stmt_parse_result natPasses ap.1 ap.2
     r.2.2.2 = [Pass.nameck, Pass.scopeck, Pass.grammarP, Pass.stmtParseP] ∧
     r.2.2.1.verify = none ∧ r.2.2.1.outline = none ∧
     r.2.2.1.segments.isSome ∧ r.2.2.1.nameset.isSome ∧
     r.2.2.1.scopes.isSome ∧ r.2.2.1.grammar.isSome ∧
     r.2.2.1.stmt_parse.isSome) :=
  c2_stmt_parse_prerequisites natPasses

/-- C6 witness: `name_result` twice on a fresh `Nat`-payload database. -/
theorem c6_witness :
    runAcc natPasses Acc.nameA
        (runAcc natPasses Acc.nameA (db_new natPasses).1
          (db_new natPasses).2).2.1
        (runAcc natPasses Acc.nameA (db_new natPasses).1
          (db_new natPasses).2).2.2.1 =
      ((runAcc natPasses Acc.nameA (db_new natPasses).1
          (db_new natPasses).2).1,
        (runAcc natPasses Acc.nameA (db_new natPasses).1
          (db_new natPasses).2).2.1,
        (runAcc natPasses Acc.nameA (db_new natPasses).1
          (db_new natPasses).2).2.2.1, []) :=
  c6_second_call_same_handle natPasses Acc.nameA (db_new natPasses).1
    (db_new natPasses).2

end MMKnife
